import Mathlib

/-!
Verification of the virtual-memory translation and page-granular mapping engine
of the rCore-style teaching kernel (sources: `os/src/mm/page_table.rs` and
`os/src/syscall/process.rs`).

Machine integers (`usize`) are modelled as `Nat` with explicit `% 2 ^ 64`
at the operations where wrap-around can occur.  Physical memory is modelled
as a total function from physical page number and entry index to page-table
entries.  Code that panics (`unwrap`, failed `assert!`) is modelled with
`Option`, `none` meaning a kernel panic.
-/

namespace RCoreVM

def PAGE_SIZE : Nat := 4096

-- Page-table entry flag bits, from the `bitflags!` block in `page_table.rs`.
namespace PTEFlags

def V : Nat := 1
def R : Nat := 2
def W : Nat := 4
def X : Nat := 8
def U : Nat := 16
def G : Nat := 32
def A : Nat := 64
def D : Nat := 128

end PTEFlags

/-- Bit-packed page table entry (`PageTableEntry { bits: usize }`). -/
structure PageTableEntry where
  bits : Nat
  deriving DecidableEq, Repr

/-- Source: `PageTableEntry::new`, `bits: ppn.0 << 10 | flags.bits as usize` (usize arithmetic). -/
def PageTableEntry.new (ppn flags : Nat) : PageTableEntry :=
  ⟨(ppn <<< 10 ||| flags) % 2 ^ 64⟩

/-- Source: `PageTableEntry::empty`, the all-zero entry. -/
def PageTableEntry.empty : PageTableEntry := ⟨0⟩

/-- Source: `PageTableEntry::ppn`, `bits >> 10 & ((1usize << 44) - 1)`. -/
def PageTableEntry.ppn (e : PageTableEntry) : Nat := e.bits >>> 10 &&& (2 ^ 44 - 1)

/-- Source: `PageTableEntry::flags`, `PTEFlags::from_bits(bits as u8)`: the low 8 bits. -/
def PageTableEntry.flags (e : PageTableEntry) : Nat := e.bits % 2 ^ 8

/-- Source: `PageTableEntry::is_valid`, `(flags & V) != empty`. -/
def PageTableEntry.is_valid (e : PageTableEntry) : Bool := e.flags &&& PTEFlags.V != 0

/-- Machine state: physical memory viewed as page-table-entry arrays
(`ppn.get_pte_array()[idx]`), plus the state of the physical frame
allocator (next free physical page number and an optional remaining
budget, `none` meaning an unbounded supply). -/
structure MState where
  mem : Nat → Nat → PageTableEntry
  next : Nat
  budget : Option Nat

/-- Modelled from the spec: the external frame allocator collaborator
(`frame_alloc() -> optional frame handle`, its source is not among the
provided files).  It hands out an unused physical page number (bounded by
the 44-bit PPN width), clearing the page, and fails when exhausted. -/
def frame_alloc (s : MState) : Option (Nat × MState) :=
  if s.budget = some 0 ∨ 2 ^ 44 ≤ s.next then none
  else
    some (s.next,
      { mem := fun p i => if p = s.next then PageTableEntry.empty else s.mem p i,
        next := s.next + 1,
        budget := s.budget.map (fun b => b - 1) })

/-- Store one page-table entry (`*pte = ...` through a mutable reference). -/
def writePTE (s : MState) (p i : Nat) (e : PageTableEntry) : MState :=
  { s with mem := fun q j => if q = p ∧ j = i then e else s.mem q j }

/-- Source: `PageTable { root_ppn, frames }`. -/
structure PageTable where
  root_ppn : Nat
  frames : List Nat

/-- Modelled from the spec: `VirtPageNum::indexes()` (its source file
`address.rs` is not among the provided files) decomposes a VPN into three
9-bit radix indices, most significant first; these are the components. -/
def idx0 (v : Nat) : Nat := v / 2 ^ 18 % 512

def idx1 (v : Nat) : Nat := v / 2 ^ 9 % 512

def idx2 (v : Nat) : Nat := v % 512

/-- Source: `PageTable::new`: allocates the root frame (`unwrap` on failure). -/
def PageTable.new (s : MState) : Option (PageTable × MState) :=
  (frame_alloc s).map (fun r => (⟨r.1, [r.1]⟩, r.2))

/-- Source: `PageTable::from_token`, root is `satp & ((1usize << 44) - 1)`, no owned frames. -/
def PageTable.from_token (satp : Nat) : PageTable := ⟨satp &&& (2 ^ 44 - 1), []⟩

/-- The read-only walk of `PageTable::find_pte`, returning the location
(frame, index) of the leaf slot; a mutable reference is modelled as the
location plus reads of the current memory.  An invalid entry at either of
the first two levels terminates the walk with `none`; the leaf slot is
returned whether or not it is valid. -/
def PageTable.find_pte_loc (pt : PageTable) (m : Nat → Nat → PageTableEntry) (v : Nat) :
    Option (Nat × Nat) :=
  let e0 := m pt.root_ppn (idx0 v)
  if e0.is_valid then
    let e1 := m e0.ppn (idx1 v)
    if e1.is_valid then some (e1.ppn, idx2 v) else none
  else none

/-- Source: `PageTable::find_pte` (the value held in the leaf slot). -/
def PageTable.find_pte (pt : PageTable) (m : Nat → Nat → PageTableEntry) (v : Nat) :
    Option PageTableEntry :=
  (pt.find_pte_loc m v).map (fun l => m l.1 l.2)

/-- One intermediate level of `PageTable::find_pte_create`: descend through a
valid entry, or allocate a fresh table frame (panic, `none`, if the
allocator fails), record it as `Valid` with no other bits, push it onto the
owned-frame list, and descend into it (the code re-reads `pte.ppn()`). -/
def PageTable.walkStep (pt : PageTable) (s : MState) (table idx : Nat) :
    Option (PageTable × MState × Nat) :=
  let e := s.mem table idx
  if e.is_valid then some (pt, s, e.ppn)
  else
    match frame_alloc s with
    | none => none
    | some (f, s1) =>
      let e' := PageTableEntry.new f PTEFlags.V
      some ({ pt with frames := pt.frames ++ [f] }, writePTE s1 table idx e', e'.ppn)

/-- Source: `PageTable::find_pte_create`: the two intermediate levels, then
the leaf slot (returned whether or not it is valid). -/
def PageTable.find_pte_create (pt : PageTable) (s : MState) (v : Nat) :
    Option (PageTable × MState × Nat × Nat) := do
  let (pt1, s1, f1) ← pt.walkStep s pt.root_ppn (idx0 v)
  let (pt2, s2, f2) ← pt1.walkStep s1 f1 (idx1 v)
  some (pt2, s2, f2, idx2 v)

/-- Source: `PageTable::map`: leaf slot via `find_pte_create` (`unwrap` of the
inner allocations may panic), `assert!(!pte.is_valid())` (panic if mapped),
then write `PageTableEntry::new(ppn, flags | V)`. -/
def PageTable.map (pt : PageTable) (s : MState) (v p f : Nat) : Option (PageTable × MState) :=
  match pt.find_pte_create s v with
  | none => none
  | some (pt', s', fr, i) =>
    if (s'.mem fr i).is_valid then none
    else some (pt', writePTE s' fr i (PageTableEntry.new p (f ||| PTEFlags.V)))

/-- Source: `PageTable::unmap`: leaf slot via `find_pte` (`unwrap`: panic when
absent), `assert!(pte.is_valid())` (panic when already invalid), then write
`PageTableEntry::empty()`. -/
def PageTable.unmap (pt : PageTable) (s : MState) (v : Nat) : Option MState :=
  match pt.find_pte_loc s.mem v with
  | none => none
  | some l =>
    if (s.mem l.1 l.2).is_valid then some (writePTE s l.1 l.2 PageTableEntry.empty)
    else none

/-- Source: `PageTable::translate`: a read-only copy of what `find_pte` finds. -/
def PageTable.translate (pt : PageTable) (m : Nat → Nat → PageTableEntry) (v : Nat) :
    Option PageTableEntry :=
  pt.find_pte m v

/-- Source: `PageTable::token`, `8usize << 60 | root_ppn.0`. -/
def PageTable.token (pt : PageTable) : Nat := 8 <<< 60 ||| pt.root_ppn

/-- Modelled from the spec: `map_inner` (from the task module, whose source is
not among the provided files) installs one leaf mapping in the current
task's page table: per the spec's apply phase it drives `PageTable::map`
on the current address space. -/
def map_inner (cur : PageTable) (s : MState) (v p f : Nat) : Option (PageTable × MState) :=
  PageTable.map cur s v p f

/-- Permission-bit translation in `sys_mmap`: flags accumulated from the
`port` bits in the order W, R, X. -/
def otherFlags (port : Nat) : Nat :=
  ((if port &&& 2 != 0 then PTEFlags.W else 0) |||
    (if port &&& 1 != 0 then PTEFlags.R else 0)) |||
    (if port &&& 4 != 0 then PTEFlags.X else 0)

/-- The loop bound both syscalls compute: `end = start + len - 1` in wrapping
usize arithmetic, then `(end / PAGE_SIZE + 1) * PAGE_SIZE` (again wrapping). -/
def roundedBound (start len : Nat) : Nat :=
  ((start + len + (2 ^ 64 - 1)) % 2 ^ 64 / PAGE_SIZE + 1) * PAGE_SIZE % 2 ^ 64

/-- Check loop of `sys_mmap` (fuel-indexed; the fuel passed by `sys_mmap`
covers every iteration): scan `binder` from `start` in page steps and
report `true` (leading to `-1`) if some page translates to an entry with
nonzero bits. -/
def mmapCheck (pt : PageTable) (m : Nat → Nat → PageTableEntry) (bound : Nat) :
    Nat → Nat → Bool
  | 0, _ => false
  | fuel + 1, binder =>
    if binder < bound then
      match pt.translate m (binder / PAGE_SIZE) with
      | some e =>
        if e.bits ≠ 0 then true else mmapCheck pt m bound fuel (binder + PAGE_SIZE)
      | none => mmapCheck pt m bound fuel (binder + PAGE_SIZE)
    else false

/-- Apply loop of `sys_mmap`: for each page, try to allocate a data frame,
defaulting the physical page number to 0 when the allocator returns
nothing, and install the leaf through `map_inner` with flags `U` plus the
requested R/W/X bits (a panic inside `map` aborts the whole call). -/
def mmapApply (bound oflags : Nat) : Nat → Nat → PageTable → MState → Option (PageTable × MState)
  | 0, _, _, _ => none
  | fuel + 1, binder, cur, s =>
    if binder < bound then
      let pr :=
        match frame_alloc s with
        | none => ((0 : Nat), s)
        | some r => r
      match map_inner cur pr.2 (binder / PAGE_SIZE) pr.1 (PTEFlags.U ||| oflags) with
      | none => none
      | some (cur', s2) => mmapApply bound oflags fuel (binder + PAGE_SIZE) cur' s2
    else some (cur, s)

/-- Source: `sys_mmap` in `syscall/process.rs`: port and alignment validation,
then the check loop over the rounded span through a token-constructed view
of the current address space, then the apply loop. -/
def sys_mmap (cur : PageTable) (s : MState) (start len port : Nat) :
    Option (Int × PageTable × MState) :=
  if port &&& 7 = 0 ∨ port &&& (2 ^ 64 - 8) ≠ 0 ∨ start % PAGE_SIZE ≠ 0 then some (-1, cur, s)
  else
    let pt := PageTable.from_token (PageTable.token cur)
    let bound := roundedBound start len
    if mmapCheck pt s.mem bound (bound / PAGE_SIZE + 1) start then some (-1, cur, s)
    else (mmapApply bound (otherFlags port) (bound / PAGE_SIZE + 1) start cur s).map
      (fun r => (0, r))

/-- Check loop of `sys_munmap`: report `true` (leading to `-1`) if some page
translates to an entry whose bits are zero.  A page whose translation is
absent (`none`) passes the check unflagged. -/
def munmapCheck (pt : PageTable) (m : Nat → Nat → PageTableEntry) (bound : Nat) :
    Nat → Nat → Bool
  | 0, _ => false
  | fuel + 1, binder =>
    if binder < bound then
      match pt.translate m (binder / PAGE_SIZE) with
      | some e =>
        if e.bits = 0 then true else munmapCheck pt m bound fuel (binder + PAGE_SIZE)
      | none => munmapCheck pt m bound fuel (binder + PAGE_SIZE)
    else false

/-- Apply loop of `sys_munmap`: clear each page through `PageTable::unmap` on
the token-constructed view (panics propagate as `none`). -/
def munmapApply (pt : PageTable) (bound : Nat) : Nat → Nat → MState → Option MState
  | 0, _, _ => none
  | fuel + 1, binder, s =>
    if binder < bound then
      match pt.unmap s (binder / PAGE_SIZE) with
      | none => none
      | some s' => munmapApply pt bound fuel (binder + PAGE_SIZE) s'
    else some s

/-- Source: `sys_munmap` in `syscall/process.rs`. -/
def sys_munmap (cur : PageTable) (s : MState) (start len : Nat) : Option (Int × MState) :=
  if start % PAGE_SIZE ≠ 0 then some (-1, s)
  else
    let pt := PageTable.from_token (PageTable.token cur)
    let bound := roundedBound start len
    if munmapCheck pt s.mem bound (bound / PAGE_SIZE + 1) start then some (-1, s)
    else (munmapApply pt bound (bound / PAGE_SIZE + 1) start s).map (fun s' => (0, s'))

/-- One byte window produced by `translated_byte_buffer`: a sub-slice
`[lo, hi)` of the byte array of physical page `ppn`.  The field `va` records
the virtual address the window starts at (the loop's `start_va`), carried so
that the ordering guarantees can be stated. -/
structure ByteWindow where
  ppn : Nat
  lo : Nat
  hi : Nat
  va : Nat
  deriving DecidableEq, Repr

/-- Loop of `translated_byte_buffer` (fuel-indexed): translate the page
containing `start` (`unwrap`: panic when absent), emit the window up to the
end of page or `endv`, whichever is nearer, and advance. -/
def tbbLoop (pt : PageTable) (m : Nat → Nat → PageTableEntry) (endv : Nat) :
    Nat → Nat → Option (List ByteWindow)
  | 0, _ => none
  | fuel + 1, start =>
    if start < endv then
      let vpn := start / PAGE_SIZE
      match pt.translate m vpn with
      | none => none
      | some e =>
        let end_va := min ((vpn + 1) * PAGE_SIZE) endv
        let w : ByteWindow :=
          if end_va % PAGE_SIZE = 0 then ⟨e.ppn, start % PAGE_SIZE, PAGE_SIZE, start⟩
          else ⟨e.ppn, start % PAGE_SIZE, end_va % PAGE_SIZE, start⟩
        match tbbLoop pt m endv fuel end_va with
        | none => none
        | some ws => some (w :: ws)
    else some []

/-- Source: `translated_byte_buffer(token, ptr, len)`: split the virtual byte
range `[ptr, ptr + len)` (usize arithmetic) into per-page windows through a
token-constructed page table. -/
def translated_byte_buffer (token : Nat) (m : Nat → Nat → PageTableEntry) (ptr len : Nat) :
    Option (List ByteWindow) :=
  let pt := PageTable.from_token token
  tbbLoop pt m ((ptr + len) % 2 ^ 64) (len / PAGE_SIZE + 3) ptr

/-- The set (as a list) of physical byte addresses `sys_get_time` writes: the
code translates only the page containing `ts` and writes the 16-byte
`TimeVal` record contiguously at `ppn * PAGE_SIZE + page_offset(ts)`. -/
def sys_get_time_writes (cur : PageTable) (m : Nat → Nat → PageTableEntry) (ts : Nat) :
    Option (List Nat) :=
  let pt := PageTable.from_token (PageTable.token cur)
  match pt.translate m (ts / PAGE_SIZE) with
  | none => none
  | some e => some (List.range' (e.ppn * PAGE_SIZE + ts % PAGE_SIZE) 16)

/-- Physical byte addresses covered by one byte window. -/
def windowBytes (w : ByteWindow) : List Nat :=
  List.range' (w.ppn * PAGE_SIZE + w.lo) (w.hi - w.lo)

/-- Physical byte addresses a cross-page buffered write of `len` bytes at
user pointer `ts` would touch: the concatenation of the window byte ranges
of `translated_byte_buffer`. -/
def buffered_writes (cur : PageTable) (m : Nat → Nat → PageTableEntry) (ts len : Nat) :
    Option (List Nat) :=
  (translated_byte_buffer (PageTable.token cur) m ts len).map
    (fun ws => (ws.map windowBytes).flatten)

/-- Well-formedness of the radix tree rooted at `root`: the shape every page
table reachable through `PageTable::new` / `map` / `unmap` keeps.  Table
frames were handed out by the allocator in increasing order (root before
its level-1 children, each level-1 table before its level-2 children, all
below `next` and within the 44-bit PPN width), and distinct slots point to
distinct table frames across levels. -/
structure Inv (root : Nat) (s : MState) : Prop where
  rootLt : root < s.next
  nextLe : s.next ≤ 2 ^ 44
  l1_gt : ∀ i, (s.mem root i).is_valid = true → root < (s.mem root i).ppn
  l1_lt : ∀ i, (s.mem root i).is_valid = true → (s.mem root i).ppn < s.next
  l2_gt : ∀ i j, (s.mem root i).is_valid = true →
    (s.mem (s.mem root i).ppn j).is_valid = true →
    (s.mem root i).ppn < (s.mem (s.mem root i).ppn j).ppn
  l2_lt : ∀ i j, (s.mem root i).is_valid = true →
    (s.mem (s.mem root i).ppn j).is_valid = true →
    (s.mem (s.mem root i).ppn j).ppn < s.next
  l1_inj : ∀ i i', (s.mem root i).is_valid = true → (s.mem root i').is_valid = true →
    (s.mem root i).ppn = (s.mem root i').ppn → i = i'
  l2_ne_l1 : ∀ i j i', (s.mem root i).is_valid = true →
    (s.mem (s.mem root i).ppn j).is_valid = true → (s.mem root i').is_valid = true →
    (s.mem (s.mem root i).ppn j).ppn ≠ (s.mem root i').ppn
  l2_inj : ∀ i j i' j', (s.mem root i).is_valid = true →
    (s.mem (s.mem root i).ppn j).is_valid = true → (s.mem root i').is_valid = true →
    (s.mem (s.mem root i').ppn j').is_valid = true →
    (s.mem (s.mem root i).ppn j).ppn = (s.mem (s.mem root i').ppn j').ppn →
    i = i' ∧ j = j'

/-- The windows list starts at virtual address `a` and is contiguous: each
window has positive length, sits at the running virtual address, and the
next window starts where it ends.  This packages "ascending in virtual
address, gapless, non-overlapping". -/
def chained : Nat → List ByteWindow → Prop
  | _, [] => True
  | a, w :: ws => w.va = a ∧ 0 < w.hi - w.lo ∧ chained (a + (w.hi - w.lo)) ws

/-! Concrete machine states used by the counterexamples and witnesses. -/

/-- A machine whose memory is entirely clear: frame 0 is the (empty) root
table of the current address space, frame 1 is the next free frame. -/
def msEmpty : MState := ⟨fun _ _ => PageTableEntry.empty, 1, none⟩

/-- The current task's page table for `msEmpty`. -/
def curEmpty : PageTable := ⟨0, [0]⟩

/-- Memory in which virtual page 0 is mapped: root frame 0 points to the
level-1 table in frame 1 (entry bits `1 <<< 10 ||| V = 1025`), which points
to the leaf table in frame 2 (bits `2049`), whose slot 0 holds the leaf
entry `new 7 (R ||| V)` (bits `7 <<< 10 ||| 3 = 7171`). -/
def mem9 : Nat → Nat → PageTableEntry := fun p i =>
  if p = 0 ∧ i = 0 then ⟨1025⟩
  else if p = 1 ∧ i = 0 then ⟨2049⟩
  else if p = 2 ∧ i = 0 then ⟨7171⟩
  else ⟨0⟩

/-- Machine state around `mem9`. -/
def ms9 : MState := ⟨mem9, 3, none⟩

/-- Owning page table for `mem9` (root frame 0). -/
def cur9 : PageTable := ⟨0, [0, 1, 2]⟩

/-- Memory in which virtual page 0 translates to physical frame 5 and virtual
page 1 to physical frame 9 (leaf bits `new 5 (R|||V) = 5123` and
`new 9 (R|||V) = 9219`); the physically adjacent frame 6 is unrelated to
the mapping of virtual page 1. -/
def mem3 : Nat → Nat → PageTableEntry := fun p i =>
  if p = 0 ∧ i = 0 then ⟨1025⟩
  else if p = 1 ∧ i = 0 then ⟨2049⟩
  else if p = 2 ∧ i = 0 then ⟨5123⟩
  else if p = 2 ∧ i = 1 then ⟨9219⟩
  else ⟨0⟩

/-- Owning page table for `mem3`. -/
def cur3 : PageTable := ⟨0, [0, 1, 2]⟩

/-- Memory in which virtual page 511 has a full (empty-leaf) walk chain while
virtual page 512 needs a level-1 table that does not exist: root frame 0
slot 0 points to frame 1, whose slot 0 points to the leaf table frame 2 and
whose slot 1 is invalid. -/
def mem10 : Nat → Nat → PageTableEntry := fun p i =>
  if p = 0 ∧ i = 0 then ⟨1025⟩
  else if p = 1 ∧ i = 0 then ⟨2049⟩
  else ⟨0⟩

/-- Machine state around `mem10` with an exhausted frame allocator. -/
def ms10 : MState := ⟨mem10, 3, some 0⟩

/-- Owning page table for `mem10`. -/
def cur10 : PageTable := ⟨0, [0, 1, 2]⟩

/-- Memory in which virtual pages 0 and 1 are both mapped valid (leaf bits
`new 5 (U|||W|||R|||V) = 5143` and `new 6 (U|||W|||R|||V) = 6167`). -/
def mem4 : Nat → Nat → PageTableEntry := fun p i =>
  if p = 0 ∧ i = 0 then ⟨1025⟩
  else if p = 1 ∧ i = 0 then ⟨2049⟩
  else if p = 2 ∧ i = 0 then ⟨5143⟩
  else if p = 2 ∧ i = 1 then ⟨6167⟩
  else ⟨0⟩

/-- Machine state around `mem4`. -/
def ms4 : MState := ⟨mem4, 7, none⟩

/-- Owning page table for `mem4`. -/
def cur4 : PageTable := ⟨0, [0, 1, 2]⟩

/-- C1: the claim says a munmap span containing a page whose translation is
absent (an invalid intermediate level, `translate` reporting `none`) makes
`sys_munmap` return `-1` with no modification.  In the code the check loop
only rejects pages that translate to an entry with zero bits; a page whose
translation is absent passes the check, and the apply phase then panics
inside `PageTable::unmap` (`find_pte(...).unwrap()` on `None`).  On a
machine with a completely empty page table, `sys_munmap(4096, 4096)`
panics (the run is `none`) instead of returning `-1`. -/
theorem C1_munmap_absent_page_panics :
    sys_munmap curEmpty msEmpty 4096 4096 = none := rfl

/-- C2 counterexample: with virtual page 0 mapped (leaf bits 7171, a valid
entry), `unmap(0)` succeeds, yet `translate(0)` afterwards returns `some`
of the empty entry — not "no entry" as claimed: `find_pte` hands back the
leaf slot without checking its validity. -/
theorem C2_counterexample :
    PageTable.translate cur9 ms9.mem 0 = some ⟨7171⟩ ∧
    (PageTableEntry.mk 7171).is_valid = true ∧
    (PageTable.unmap cur9 ms9 0).map (fun s => PageTable.translate cur9 s.mem 0) =
      some (some PageTableEntry.empty) :=
  ⟨rfl, rfl, rfl⟩

/-- C3: `sys_get_time` translates only the page containing the user pointer
and writes the whole 16-byte record contiguously from the resulting
physical address.  With the record at page offset 4088 (virtual address
4088), virtual page 0 mapped to frame 5 and virtual page 1 mapped to frame
9, the code writes bytes 24568..24583 — spilling into the physically
adjacent frame 6 — whereas the cross-page buffer translator writes the
last 8 bytes into frame 9 (bytes 36864..36871).  The record is not written
via `AddressSpaceBuffer` and the write is wrong across a page boundary. -/
theorem C3_get_time_raw_write_wrong :
    sys_get_time_writes cur3 mem3 4088 = some (List.range' 24568 16) ∧
    buffered_writes cur3 mem3 4088 16 =
      some (List.range' 24568 8 ++ List.range' 36864 8) ∧
    sys_get_time_writes cur3 mem3 4088 ≠ buffered_writes cur3 mem3 4088 16 := by
  refine ⟨rfl, rfl, ?_⟩
  decide

/-- C7 counterexample: a zero-length `sys_mmap` call with page-aligned start
does not return 0 for every argument combination: with `port = 0` the
permission validation fires first and the call returns `-1`. -/
theorem C7_counterexample :
    (sys_mmap curEmpty msEmpty 4096 0 0).map (fun r => r.1) = some (-1) := rfl

/-- C9 counterexample: `sys_munmap` does mutate through a token-constructed
page table: its apply phase calls `PageTable::unmap` on the view built by
`from_token(current_user_token())`.  Observably, the translation of
virtual page 0 seen through that token-constructed view is a valid entry
(bits 7171) before the call and the empty entry after it. -/
theorem C9_counterexample :
    PageTable.translate (PageTable.from_token (PageTable.token cur9)) ms9.mem 0 =
      some ⟨7171⟩ ∧
    (sys_munmap cur9 ms9 0 4096).map
        (fun r => (r.1, PageTable.translate (PageTable.from_token (PageTable.token cur9))
          r.2.mem 0)) =
      some (0, some PageTableEntry.empty) :=
  ⟨rfl, rfl⟩

/-- C10 counterexample: when the frame allocator is exhausted, the apply phase
does not always finish with 0.  Mapping the two-page span covering virtual
pages 511 and 512 (which lie under different level-1 slots) on `mem10`:
page 511's leaf is installed with physical page number 0, but page 512
needs a fresh intermediate table, and `find_pte_create`'s
`frame_alloc().unwrap()` panics — the call does not return 0. -/
theorem C10_counterexample :
    ms10.budget = some 0 ∧ sys_mmap cur10 ms10 (511 * 4096) 8192 1 = none :=
  ⟨rfl, rfl⟩

/-! Helper lemmas about entry encoding and the basic state operations. -/

theorem ppn_eq_div_mod (e : PageTableEntry) : e.ppn = e.bits / 2 ^ 10 % 2 ^ 44 := by
  unfold PageTableEntry.ppn
  rw [Nat.shiftRight_eq_div_pow, Nat.and_pow_two_sub_one_eq_mod]

theorem lor_eq_add_of_lt {a b k : Nat} (h : b < 2 ^ k) : a <<< k ||| b = 2 ^ k * a + b := by
  rw [Nat.shiftLeft_eq, Nat.mul_comm, Nat.mul_add_lt_is_or h]

theorem new_bits (p f : Nat) (hf : f < 2 ^ 10) :
    (PageTableEntry.new p f).bits = (2 ^ 10 * p + f) % 2 ^ 64 := by
  unfold PageTableEntry.new
  rw [lor_eq_add_of_lt hf]

theorem new_ppn (p f : Nat) (hp : p < 2 ^ 44) (hf : f < 2 ^ 10) :
    (PageTableEntry.new p f).ppn = p := by
  rw [ppn_eq_div_mod, new_bits p f hf]
  omega

theorem new_flags (p f : Nat) (hf : f < 2 ^ 8) :
    (PageTableEntry.new p f).flags = f := by
  unfold PageTableEntry.flags
  rw [new_bits p f (by omega)]
  omega

theorem is_valid_iff (e : PageTableEntry) : e.is_valid = true ↔ e.bits % 2 = 1 := by
  unfold PageTableEntry.is_valid PageTableEntry.flags PTEFlags.V
  rw [Nat.and_one_is_mod, Nat.mod_mod_of_dvd _ (by norm_num : (2 : Nat) ∣ 2 ^ 8)]
  rcases Nat.mod_two_eq_zero_or_one e.bits with h | h <;> simp [h]

theorem new_is_valid (p f : Nat) (hf : f < 2 ^ 10) :
    (PageTableEntry.new p f).is_valid = true ↔ f % 2 = 1 := by
  rw [is_valid_iff, new_bits p f hf]
  omega

theorem empty_not_valid : PageTableEntry.empty.is_valid = false := rfl

theorem bits_ne_zero_of_valid (e : PageTableEntry) (h : e.is_valid = true) : e.bits ≠ 0 := by
  rw [is_valid_iff] at h
  omega

theorem lor_one_eq (f : Nat) : f ||| 1 = 2 * (f / 2) + 1 := by
  have h2 : 2 ^ 1 * (f / 2) + 1 = 2 ^ 1 * (f / 2) ||| 1 :=
    Nat.mul_add_lt_is_or (by norm_num) (f / 2)
  rcases Nat.mod_two_eq_zero_or_one f with h | h
  · have hf : f = 2 ^ 1 * (f / 2) := by omega
    calc f ||| 1 = 2 ^ 1 * (f / 2) ||| 1 := by rw [← hf]
    _ = 2 ^ 1 * (f / 2) + 1 := h2.symm
    _ = 2 * (f / 2) + 1 := by norm_num
  · have hf : f = 2 ^ 1 * (f / 2) + 1 := by omega
    calc f ||| 1 = (2 ^ 1 * (f / 2) ||| 1) ||| 1 := by rw [← h2, ← hf]
    _ = 2 ^ 1 * (f / 2) ||| (1 ||| 1) := by rw [Nat.lor_assoc]
    _ = 2 ^ 1 * (f / 2) ||| 1 := rfl
    _ = 2 * (f / 2) + 1 := by rw [← h2]; norm_num

theorem otherFlags_lt (port : Nat) : otherFlags port < 16 := by
  unfold otherFlags PTEFlags.W PTEFlags.R PTEFlags.X
  split <;> split <;> split <;> decide

theorem u_or_eq (port : Nat) : PTEFlags.U ||| otherFlags port = 16 + otherFlags port := by
  have h := otherFlags_lt port
  have h2 : PTEFlags.U ||| otherFlags port = 2 ^ 4 * 1 + otherFlags port := by
    rw [Nat.mul_add_lt_is_or h 1]
    rfl
  omega

theorem from_token_token (pt : PageTable) (h : pt.root_ppn < 2 ^ 44) :
    PageTable.from_token pt.token = ⟨pt.root_ppn, []⟩ := by
  unfold PageTable.from_token PageTable.token
  rw [lor_eq_add_of_lt (by omega : pt.root_ppn < 2 ^ 60)]
  rw [Nat.and_pow_two_sub_one_eq_mod]
  congr 1
  omega

theorem translate_only_root (pt pt' : PageTable) (m : Nat → Nat → PageTableEntry)
    (h : pt.root_ppn = pt'.root_ppn) (v : Nat) : pt.translate m v = pt'.translate m v := by
  unfold PageTable.translate PageTable.find_pte PageTable.find_pte_loc
  rw [h]

theorem translate_def (pt : PageTable) (m : Nat → Nat → PageTableEntry) (v : Nat) :
    pt.translate m v =
      if (m pt.root_ppn (idx0 v)).is_valid then
        if (m (m pt.root_ppn (idx0 v)).ppn (idx1 v)).is_valid then
          some (m (m (m pt.root_ppn (idx0 v)).ppn (idx1 v)).ppn (idx2 v))
        else none
      else none := by
  unfold PageTable.translate PageTable.find_pte PageTable.find_pte_loc
  by_cases h0 : (m pt.root_ppn (idx0 v)).is_valid = true
  · by_cases h1 : (m (m pt.root_ppn (idx0 v)).ppn (idx1 v)).is_valid = true <;>
      simp [h0, h1]
  · simp [h0]

theorem writePTE_mem_eq (s : MState) (p i : Nat) (e : PageTableEntry) :
    (writePTE s p i e).mem p i = e := by
  simp [writePTE]

theorem writePTE_mem_ne (s : MState) (p i : Nat) (e : PageTableEntry) (q j : Nat)
    (h : ¬(q = p ∧ j = i)) : (writePTE s p i e).mem q j = s.mem q j := by
  simp only [writePTE]
  rw [if_neg h]

theorem writePTE_next (s : MState) (p i : Nat) (e : PageTableEntry) :
    (writePTE s p i e).next = s.next := rfl

theorem writePTE_budget (s : MState) (p i : Nat) (e : PageTableEntry) :
    (writePTE s p i e).budget = s.budget := rfl

theorem frame_alloc_spec (s : MState) (p : Nat) (s' : MState)
    (h : frame_alloc s = some (p, s')) :
    p = s.next ∧ s'.next = s.next + 1 ∧ s.next < 2 ^ 44 ∧
      (∀ q j, q ≠ s.next → s'.mem q j = s.mem q j) ∧
      (∀ j, s'.mem s.next j = PageTableEntry.empty) ∧
      s'.budget = s.budget.map (fun b => b - 1) := by
  unfold frame_alloc at h
  split at h
  · exact absurd h (by simp)
  · next hcond =>
    injection h with h1
    injection h1 with hp hs
    subst hp
    refine ⟨rfl, ?_, by omega, ?_, ?_, ?_⟩
    · rw [← hs]
    · intro q j hq
      rw [← hs]
      simp [hq]
    · intro j
      rw [← hs]
      simp
    · rw [← hs]

theorem frame_alloc_succeeds (s : MState) (h : s.budget = none) (hn : s.next < 2 ^ 44) :
    ∃ F s1, frame_alloc s = some (F, s1) := by
  unfold frame_alloc
  rw [if_neg (by simp [h]; omega)]
  exact ⟨_, _, rfl⟩

theorem frame_alloc_of_budget_none (s : MState) (h : s.budget = none)
    (hn : s.next < 2 ^ 44) :
    frame_alloc s = some (s.next,
      { mem := fun p i => if p = s.next then PageTableEntry.empty else s.mem p i,
        next := s.next + 1, budget := none }) := by
  unfold frame_alloc
  rw [if_neg (by simp [h, hn]; omega)]
  simp [h]

theorem PAGE_SIZE_eq : PAGE_SIZE = 4096 := rfl

theorem mmapCheck_exit (pt : PageTable) (m : Nat → Nat → PageTableEntry)
    (bound fuel binder : Nat) (h : ¬ binder < bound) :
    mmapCheck pt m bound (fuel + 1) binder = false := by
  simp only [mmapCheck]
  rw [if_neg h]

theorem mmapApply_exit (bound oflags fuel binder : Nat) (cur : PageTable) (s : MState)
    (h : ¬ binder < bound) :
    mmapApply bound oflags (fuel + 1) binder cur s = some (cur, s) := by
  simp only [mmapApply]
  rw [if_neg h]

theorem munmapCheck_exit (pt : PageTable) (m : Nat → Nat → PageTableEntry)
    (bound fuel binder : Nat) (h : ¬ binder < bound) :
    munmapCheck pt m bound (fuel + 1) binder = false := by
  simp only [munmapCheck]
  rw [if_neg h]

theorem munmapApply_exit (pt : PageTable) (bound fuel binder : Nat) (s : MState)
    (h : ¬ binder < bound) :
    munmapApply pt bound (fuel + 1) binder s = some s := by
  simp only [munmapApply]
  rw [if_neg h]

theorem mmapCheck_of_conflict (pt : PageTable) (m : Nat → Nat → PageTableEntry)
    (bound : Nat) (e : PageTableEntry) (a : Nat) (ha : a % PAGE_SIZE = 0)
    (habound : a < bound) (htr : pt.translate m (a / PAGE_SIZE) = some e)
    (hne : e.bits ≠ 0) :
    ∀ fuel binder, binder % PAGE_SIZE = 0 → binder ≤ a →
      (a - binder) / PAGE_SIZE < fuel → mmapCheck pt m bound fuel binder = true := by
  intro fuel
  induction fuel with
  | zero => intro binder _ _ h; exact absurd h (Nat.not_lt_zero _)
  | succ n ih =>
    intro binder hb hba hfuel
    have hlt : binder < bound := by omega
    simp only [mmapCheck]
    rw [if_pos hlt]
    by_cases heq : binder = a
    · subst heq
      rw [htr]
      simp [hne]
    · have hstep : binder + PAGE_SIZE ≤ a := by
        rw [PAGE_SIZE_eq] at *
        omega
      have hih := ih (binder + PAGE_SIZE)
        (by rw [PAGE_SIZE_eq] at *; omega) hstep
        (by rw [PAGE_SIZE_eq] at *; omega)
      cases htrb : pt.translate m (binder / PAGE_SIZE) with
      | none =>
        dsimp only
        exact hih
      | some e' =>
        dsimp only
        by_cases h' : e'.bits = 0
        · rw [if_neg (by simp [h'])]
          exact hih
        · rw [if_pos h']

/-- C4: when validation passes and some page of the rounded span already has
a valid translation through the token-constructed view of the current
address space, `sys_mmap` fails with `-1`, returning the page table and the
machine state (memory and allocator included) unchanged. -/
theorem C4_mmap_overlap_rejected (cur : PageTable) (s : MState) (start len port a : Nat)
    (hport1 : port &&& 7 ≠ 0) (hport2 : port &&& (2 ^ 64 - 8) = 0)
    (halign : start % PAGE_SIZE = 0) (ha : a % PAGE_SIZE = 0)
    (h1 : start ≤ a) (h2 : a < roundedBound start len) (e : PageTableEntry)
    (htr : (PageTable.from_token cur.token).translate s.mem (a / PAGE_SIZE) = some e)
    (hval : e.is_valid = true) :
    sys_mmap cur s start len port = some (-1, cur, s) := by
  unfold sys_mmap
  rw [if_neg (by push_neg; exact ⟨hport1, hport2, halign⟩)]
  have hcheck := mmapCheck_of_conflict (PageTable.from_token cur.token) s.mem
    (roundedBound start len) e a ha h2 htr (bits_ne_zero_of_valid e hval)
    (roundedBound start len / PAGE_SIZE + 1) start halign h1
    (by rw [PAGE_SIZE_eq] at *; omega)
  dsimp only
  rw [if_pos hcheck]

/-- C4 witness: with virtual pages 0 and 1 both mapped (`mem4`: the state
after an earlier two-page mapping of `[0, 2 * PAGE_SIZE)`), the call
`sys_mmap(PAGE_SIZE, 2 * PAGE_SIZE, R|W)` overlaps the mapped page 1 and is
rejected with `-1`, leaving state and table untouched. -/
theorem C4_witness : sys_mmap cur4 ms4 4096 8192 3 = some (-1, cur4, ms4) :=
  C4_mmap_overlap_rejected cur4 ms4 4096 8192 3 4096 (by decide) (by decide)
    (by decide) (by decide) (by omega) (by decide) ⟨6167⟩ rfl rfl

theorem roundedBound_zero_len (start : Nat) (h : start % PAGE_SIZE = 0)
    (hlt : start < 2 ^ 64) : roundedBound start 0 ≤ start := by
  unfold roundedBound PAGE_SIZE
  rw [PAGE_SIZE_eq] at h
  omega

/-- C7 (amended): a zero-length call with page-aligned start (including
`start = 0`) is a no-op: `sys_munmap` returns 0 and leaves the state
unchanged, and `sys_mmap` returns 0 and leaves the state unchanged
provided the port field passes validation; with an invalid port the
validation fires first and `sys_mmap` returns `-1` (still with no
modification). -/
theorem C7_zero_length_noop (cur : PageTable) (s : MState) (start : Nat)
    (halign : start % PAGE_SIZE = 0) (hlt : start < 2 ^ 64) :
    sys_munmap cur s start 0 = some (0, s) ∧
    (∀ port, port &&& 7 ≠ 0 → port &&& (2 ^ 64 - 8) = 0 →
      sys_mmap cur s start 0 port = some (0, cur, s)) ∧
    (∀ port, port &&& 7 = 0 ∨ port &&& (2 ^ 64 - 8) ≠ 0 →
      sys_mmap cur s start 0 port = some (-1, cur, s)) := by
  have hb := roundedBound_zero_len start halign hlt
  refine ⟨?_, ?_, ?_⟩
  · unfold sys_munmap
    rw [if_neg (by simp [halign])]
    dsimp only
    rw [munmapCheck_exit _ _ _ _ _ (by omega), munmapApply_exit _ _ _ _ _ (by omega)]
    rfl
  · intro port hp1 hp2
    unfold sys_mmap
    rw [if_neg (by push_neg; exact ⟨hp1, hp2, halign⟩)]
    dsimp only
    rw [mmapCheck_exit _ _ _ _ _ (by omega), mmapApply_exit _ _ _ _ _ _ (by omega)]
    rfl
  · intro port hp
    unfold sys_mmap
    rw [if_pos (hp.imp id Or.inl)]

/-- C7 witness: at `start = 0`, zero-length munmap and zero-length mmap with
a valid port both return 0 without modification, and zero-length mmap with
`port = 0` returns `-1`. -/
theorem C7_witness :
    sys_munmap curEmpty msEmpty 0 0 = some (0, msEmpty) ∧
    sys_mmap curEmpty msEmpty 0 0 3 = some (0, curEmpty, msEmpty) ∧
    sys_mmap curEmpty msEmpty 0 0 0 = some (-1, curEmpty, msEmpty) := by
  have h := C7_zero_length_noop curEmpty msEmpty 0 (by decide) (by decide)
  exact ⟨h.1, h.2.1 3 (by decide) (by decide), h.2.2 0 (Or.inl (by decide))⟩

theorem tbbLoop_spec (pt : PageTable) (m : Nat → Nat → PageTableEntry) (endv : Nat) :
    ∀ fuel start, start < endv →
      (∀ u, start / PAGE_SIZE ≤ u → u ≤ (endv - 1) / PAGE_SIZE →
        (pt.translate m u).isSome = true) →
      (endv - 1) / PAGE_SIZE - start / PAGE_SIZE + 2 ≤ fuel →
      ∃ ws, tbbLoop pt m endv fuel start = some ws ∧ chained start ws ∧
        ((ws.map fun w => w.hi - w.lo).sum = endv - start) ∧
        ws.length = (endv - 1) / PAGE_SIZE - start / PAGE_SIZE + 1 := by
  intro fuel
  induction fuel with
  | zero => intro start _ _ h3; omega
  | succ n ih =>
    intro start hse hmap hfuel
    have htr : (pt.translate m (start / PAGE_SIZE)).isSome = true :=
      hmap _ le_rfl (by rw [PAGE_SIZE_eq]; omega)
    obtain ⟨e, he⟩ := Option.isSome_iff_exists.mp htr
    simp only [tbbLoop]
    rw [if_pos hse, he]
    dsimp only
    by_cases hcase : (start / PAGE_SIZE + 1) * PAGE_SIZE < endv
    · -- the window ends at the page boundary and the loop continues
      have hmin : min ((start / PAGE_SIZE + 1) * PAGE_SIZE) endv =
          (start / PAGE_SIZE + 1) * PAGE_SIZE := Nat.min_eq_left (le_of_lt hcase)
      rw [hmin]
      rw [if_pos (Nat.mul_mod_left _ _)]
      have hnext : (start / PAGE_SIZE + 1) * PAGE_SIZE / PAGE_SIZE = start / PAGE_SIZE + 1 := by
        rw [PAGE_SIZE_eq]
        omega
      have hup : (start / PAGE_SIZE + 1) ≤ (endv - 1) / PAGE_SIZE := by
        rw [PAGE_SIZE_eq] at *
        omega
      obtain ⟨ws, hws, hch, hsum, hlen⟩ := ih ((start / PAGE_SIZE + 1) * PAGE_SIZE) hcase
        (fun u hu1 hu2 => hmap u (by rw [hnext] at hu1; omega) hu2)
        (by rw [hnext]; omega)
      rw [hnext] at hlen
      rw [hws]
      refine ⟨_, rfl, ⟨rfl, ?_, ?_⟩, ?_, ?_⟩
      · dsimp only
        rw [PAGE_SIZE_eq] at *
        omega
      · dsimp only
        have harith : start + (PAGE_SIZE - start % PAGE_SIZE) =
            (start / PAGE_SIZE + 1) * PAGE_SIZE := by
          rw [PAGE_SIZE_eq]
          omega
        rw [harith]
        exact hch
      · simp only [List.map_cons, List.sum_cons, hsum]
        rw [PAGE_SIZE_eq] at *
        omega
      · simp only [List.length_cons, hlen]
        omega
    · -- last window: the range ends inside or exactly at this page
      have hmin : min ((start / PAGE_SIZE + 1) * PAGE_SIZE) endv = endv :=
        Nat.min_eq_right (by omega)
      rw [hmin]
      have hend : tbbLoop pt m endv n endv = some [] := by
        cases n with
        | zero => rw [PAGE_SIZE_eq] at hfuel; omega
        | succ k =>
          simp only [tbbLoop]
          rw [if_neg (lt_irrefl endv)]
      by_cases hofs : endv % PAGE_SIZE = 0
      · rw [if_pos hofs, hend]
        have hv : endv = (start / PAGE_SIZE + 1) * PAGE_SIZE := by
          rw [PAGE_SIZE_eq] at *
          omega
        refine ⟨_, rfl, ⟨rfl, ?_, trivial⟩, ?_, ?_⟩
        · dsimp only
          rw [PAGE_SIZE_eq] at *
          omega
        · simp only [List.map_cons, List.sum_cons, List.map_nil, List.sum_nil]
          rw [PAGE_SIZE_eq] at *
          omega
        · simp only [List.length_cons, List.length_nil]
          rw [PAGE_SIZE_eq] at *
          omega
      · rw [if_neg hofs, hend]
        refine ⟨_, rfl, ⟨rfl, ?_, trivial⟩, ?_, ?_⟩
        · dsimp only
          rw [PAGE_SIZE_eq] at *
          omega
        · simp only [List.map_cons, List.sum_cons, List.map_nil, List.sum_nil]
          rw [PAGE_SIZE_eq] at *
          omega
        · simp only [List.length_cons, List.length_nil]
          rw [PAGE_SIZE_eq] at *
          omega

/-- C6: for a fully-mapped byte range of positive length, the cross-page
buffer translator succeeds and returns windows that start at the requested
pointer and are contiguous (ascending in virtual address, gapless,
non-overlapping, each of positive length), whose lengths sum to exactly the
requested length, and whose count is `k` or `k + 1` where
`k = ceil(len / PAGE_SIZE)`, depending on the starting offset. -/
theorem C6_buffer_windows (token : Nat) (m : Nat → Nat → PageTableEntry) (ptr len : Nat)
    (hlen : 0 < len) (hrange : ptr + len < 2 ^ 64)
    (hmapped : ∀ u, u ∈ List.range' (ptr / PAGE_SIZE)
        ((ptr + len - 1) / PAGE_SIZE - ptr / PAGE_SIZE + 1) →
      ((PageTable.from_token token).translate m u).isSome = true) :
    ∃ ws, translated_byte_buffer token m ptr len = some ws ∧
      chained ptr ws ∧
      ((ws.map fun w => w.hi - w.lo).sum = len) ∧
      (ws.length = (len + PAGE_SIZE - 1) / PAGE_SIZE ∨
        ws.length = (len + PAGE_SIZE - 1) / PAGE_SIZE + 1) := by
  unfold translated_byte_buffer
  have hend : (ptr + len) % 2 ^ 64 = ptr + len := Nat.mod_eq_of_lt hrange
  rw [hend]
  obtain ⟨ws, hws, hch, hsum, hcount⟩ := tbbLoop_spec (PageTable.from_token token) m
    (ptr + len) (len / PAGE_SIZE + 3) ptr (by omega)
    (fun u hu1 hu2 => hmapped u (by
      rw [List.mem_range']
      exact ⟨u - ptr / PAGE_SIZE, by rw [PAGE_SIZE_eq] at *; omega, by omega⟩))
    (by rw [PAGE_SIZE_eq] at *; omega)
  refine ⟨ws, hws, hch, by omega, ?_⟩
  rw [PAGE_SIZE_eq] at *
  omega

/-- C6 witness: a 10-byte range starting at virtual address 4090 (straddling
the boundary between mapped pages 0 and 1 of `mem3`). -/
theorem C6_witness :
    ∃ ws, translated_byte_buffer (PageTable.token cur3) mem3 4090 10 = some ws ∧
      chained 4090 ws ∧
      ((ws.map fun w => w.hi - w.lo).sum = 10) ∧
      (ws.length = (10 + PAGE_SIZE - 1) / PAGE_SIZE ∨
        ws.length = (10 + PAGE_SIZE - 1) / PAGE_SIZE + 1) :=
  C6_buffer_windows (PageTable.token cur3) mem3 4090 10 (by decide) (by decide)
    (by decide)

/-! Machinery for the invariant-based claims: effects of `map` and `unmap`
on a well-formed tree. -/

theorem idx_triple_inj (v w : Nat) (hv : v < 2 ^ 27) (hw : w < 2 ^ 27)
    (h0 : idx0 v = idx0 w) (h1 : idx1 v = idx1 w) (h2 : idx2 v = idx2 w) : v = w := by
  unfold idx0 idx1 idx2 at *
  omega

theorem new_V_valid (p : Nat) : (PageTableEntry.new p PTEFlags.V).is_valid = true :=
  (new_is_valid p PTEFlags.V (by norm_num [PTEFlags.V])).mpr (by norm_num [PTEFlags.V])

theorem new_V_ppn (p : Nat) (hp : p < 2 ^ 44) :
    (PageTableEntry.new p PTEFlags.V).ppn = p :=
  new_ppn p PTEFlags.V hp (by norm_num [PTEFlags.V])

theorem leaf_valid (p f : Nat) (hf : f < 2 ^ 10) :
    (PageTableEntry.new p (f ||| PTEFlags.V)).is_valid = true := by
  have h1 : f ||| PTEFlags.V = 2 * (f / 2) + 1 := by
    rw [show PTEFlags.V = 1 from rfl, lor_one_eq]
  exact (new_is_valid p _ (by rw [h1]; omega)).mpr (by rw [h1]; omega)

theorem leaf_ppn (p f : Nat) (hp : p < 2 ^ 44) (hf : f < 2 ^ 10) :
    (PageTableEntry.new p (f ||| PTEFlags.V)).ppn = p := by
  have h1 : f ||| PTEFlags.V = 2 * (f / 2) + 1 := by
    rw [show PTEFlags.V = 1 from rfl, lor_one_eq]
  exact new_ppn p _ hp (by rw [h1]; omega)

theorem leaf_flags (p f : Nat) (hf : f < 2 ^ 8) :
    (PageTableEntry.new p (f ||| PTEFlags.V)).flags = f ||| PTEFlags.V := by
  have h1 : f ||| PTEFlags.V = 2 * (f / 2) + 1 := by
    rw [show PTEFlags.V = 1 from rfl, lor_one_eq]
  exact new_flags p _ (by rw [h1]; omega)

theorem translate_some_elim (pt : PageTable) (m : Nat → Nat → PageTableEntry) (v : Nat)
    (e : PageTableEntry) (h : pt.translate m v = some e) :
    (m pt.root_ppn (idx0 v)).is_valid = true ∧
    (m (m pt.root_ppn (idx0 v)).ppn (idx1 v)).is_valid = true ∧
    m (m (m pt.root_ppn (idx0 v)).ppn (idx1 v)).ppn (idx2 v) = e := by
  rw [translate_def] at h
  by_cases h0 : (m pt.root_ppn (idx0 v)).is_valid = true
  · rw [if_pos h0] at h
    by_cases h1 : (m (m pt.root_ppn (idx0 v)).ppn (idx1 v)).is_valid = true
    · rw [if_pos h1] at h
      exact ⟨h0, h1, by injection h⟩
    · rw [if_neg h1] at h
      cases h
  · rw [if_neg h0] at h
    cases h

theorem translate_chain (pt : PageTable) (m : Nat → Nat → PageTableEntry) (v : Nat)
    (h0 : (m pt.root_ppn (idx0 v)).is_valid = true)
    (h1 : (m (m pt.root_ppn (idx0 v)).ppn (idx1 v)).is_valid = true) :
    pt.translate m v = some (m (m (m pt.root_ppn (idx0 v)).ppn (idx1 v)).ppn (idx2 v)) := by
  rw [translate_def, if_pos h0, if_pos h1]

theorem walkStep_valid (pt : PageTable) (s : MState) (t i : Nat)
    (h : (s.mem t i).is_valid = true) :
    pt.walkStep s t i = some (pt, s, (s.mem t i).ppn) := by
  unfold PageTable.walkStep
  rw [if_pos h]

theorem walkStep_alloc (pt : PageTable) (s : MState) (t i : Nat)
    (h : (s.mem t i).is_valid = false) (p : Nat) (s1 : MState)
    (ha : frame_alloc s = some (p, s1)) :
    pt.walkStep s t i = some ({ pt with frames := pt.frames ++ [p] },
      writePTE s1 t i (PageTableEntry.new p PTEFlags.V),
      (PageTableEntry.new p PTEFlags.V).ppn) := by
  unfold PageTable.walkStep
  rw [if_neg (by simp [h]), ha]

/-- The parts of memory the invariant clauses read: the root table and every
valid level-1 table.  Two states that agree there (and only grow `next`)
transfer the invariant. -/
def sameTree (root : Nat) (s s' : MState) : Prop :=
  (∀ i, s'.mem root i = s.mem root i) ∧
  (∀ i j, (s.mem root i).is_valid = true →
    s'.mem (s.mem root i).ppn j = s.mem (s.mem root i).ppn j)

theorem inv_of_sameTree (root : Nat) (s s' : MState) (hInv : Inv root s)
    (hst : sameTree root s s') (hnext : s.next ≤ s'.next) (hle : s'.next ≤ 2 ^ 44) :
    Inv root s' := by
  obtain ⟨h1, h2⟩ := hst
  refine ⟨by have := hInv.rootLt; omega, hle, ?_, ?_, ?_, ?_, ?_, ?_, ?_⟩
  · intro i hi
    rw [h1] at hi ⊢
    exact hInv.l1_gt i hi
  · intro i hi
    rw [h1] at hi ⊢
    have := hInv.l1_lt i hi
    omega
  · intro i j hi hj
    rw [h1] at hi hj ⊢
    rw [h2 i j hi] at hj ⊢
    exact hInv.l2_gt i j hi hj
  · intro i j hi hj
    rw [h1] at hi hj ⊢
    rw [h2 i j hi] at hj ⊢
    have := hInv.l2_lt i j hi hj
    omega
  · intro i i' hi hi' heq
    rw [h1 i] at hi
    rw [h1 i'] at hi'
    rw [h1 i, h1 i'] at heq
    exact hInv.l1_inj i i' hi hi' heq
  · intro i j i' hi hj hi'
    rw [h1 i] at hi
    rw [h1 i'] at hi'
    rw [h1 i] at hj
    rw [h2 i j hi] at hj
    rw [h1 i, h1 i', h2 i j hi]
    exact hInv.l2_ne_l1 i j i' hi hj hi'
  · intro i j i' j' hi hj hi' hj' heq
    rw [h1 i] at hi
    rw [h1 i'] at hi'
    rw [h1 i] at hj
    rw [h2 i j hi] at hj
    rw [h1 i'] at hj'
    rw [h2 i' j' hi'] at hj'
    rw [h1 i, h2 i j hi, h1 i', h2 i' j' hi'] at heq
    exact hInv.l2_inj i j i' j' hi hj hi' hj' heq

theorem frame_alloc_sameTree (root : Nat) (s : MState) (p : Nat) (s1 : MState)
    (hInv : Inv root s) (ha : frame_alloc s = some (p, s1)) : sameTree root s s1 := by
  obtain ⟨hp, _, _, hother, _, _⟩ := frame_alloc_spec s p s1 ha
  subst hp
  constructor
  · intro i
    exact hother root i (by have := hInv.rootLt; omega)
  · intro i j hi
    exact hother _ j (by have := hInv.l1_lt i hi; omega)

theorem frame_alloc_inv (root : Nat) (s : MState) (p : Nat) (s1 : MState)
    (hInv : Inv root s) (ha : frame_alloc s = some (p, s1)) : Inv root s1 := by
  obtain ⟨hp, hnext, hlt, _, _, _⟩ := frame_alloc_spec s p s1 ha
  exact inv_of_sameTree root s s1 hInv (frame_alloc_sameTree root s p s1 hInv ha)
    (by omega) (by omega)

theorem translate_frame_alloc (pt : PageTable) (s : MState) (p : Nat) (s1 : MState)
    (hInv : Inv pt.root_ppn s) (ha : frame_alloc s = some (p, s1)) (w : Nat) :
    pt.translate s1.mem w = pt.translate s.mem w := by
  obtain ⟨hp, _, _, hother, _, _⟩ := frame_alloc_spec s p s1 ha
  subst hp
  rw [translate_def, translate_def]
  rw [hother pt.root_ppn (idx0 w) (by have := hInv.rootLt; omega)]
  by_cases h0 : (s.mem pt.root_ppn (idx0 w)).is_valid = true
  · rw [hother _ (idx1 w) (by have := hInv.l1_lt (idx0 w) h0; omega)]
    by_cases h1 : (s.mem (s.mem pt.root_ppn (idx0 w)).ppn (idx1 w)).is_valid = true
    · rw [hother _ (idx2 w) (by have := hInv.l2_lt (idx0 w) (idx1 w) h0 h1; omega)]
    · rw [if_pos h0, if_pos h0, if_neg h1, if_neg h1]
  · rw [if_neg h0, if_neg h0]

/-- A write into a frame that is neither the root nor any valid level-1 table
leaves the invariant intact (the invariant never reads level-2 frame
contents). -/
theorem inv_write_outside (root : Nat) (s : MState) (F iw : Nat) (e : PageTableEntry)
    (hInv : Inv root s) (hFr : F ≠ root)
    (hFp1 : ∀ i, (s.mem root i).is_valid = true → F ≠ (s.mem root i).ppn) :
    Inv root (writePTE s F iw e) := by
  refine inv_of_sameTree root s _ hInv ⟨?_, ?_⟩ (by rw [writePTE_next]) ?_
  · intro i
    exact writePTE_mem_ne s F iw e root i (by intro hc; exact hFr hc.1.symm)
  · intro i j hi
    exact writePTE_mem_ne s F iw e _ j (by intro hc; exact hFp1 i hi hc.1.symm)
  · rw [writePTE_next]
    exact hInv.nextLe

/-- Translation of any page that does not walk through the written leaf slot
is unchanged by a write into a non-internal frame `F`.  The hypothesis
`hown` pins down which level-1 slots can point at `F`. -/
theorem translate_write_outside (pt : PageTable) (s : MState) (F iw : Nat)
    (e : PageTableEntry) (a b : Nat) (hInv : Inv pt.root_ppn s) (hFr : F ≠ pt.root_ppn)
    (hFp1 : ∀ i, (s.mem pt.root_ppn i).is_valid = true → F ≠ (s.mem pt.root_ppn i).ppn)
    (hown : ∀ i j, (s.mem pt.root_ppn i).is_valid = true →
      (s.mem (s.mem pt.root_ppn i).ppn j).is_valid = true →
      (s.mem (s.mem pt.root_ppn i).ppn j).ppn = F → i = a ∧ j = b)
    (w : Nat) (hw : ¬(idx0 w = a ∧ idx1 w = b ∧ idx2 w = iw)) :
    pt.translate (writePTE s F iw e).mem w = pt.translate s.mem w := by
  rw [translate_def, translate_def]
  rw [writePTE_mem_ne s F iw e pt.root_ppn (idx0 w) (by intro hc; exact hFr hc.1.symm)]
  by_cases h0 : (s.mem pt.root_ppn (idx0 w)).is_valid = true
  · rw [writePTE_mem_ne s F iw e _ (idx1 w)
      (by intro hc; exact hFp1 (idx0 w) h0 hc.1.symm)]
    by_cases h1 : (s.mem (s.mem pt.root_ppn (idx0 w)).ppn (idx1 w)).is_valid = true
    · rw [writePTE_mem_ne s F iw e _ (idx2 w) ?_]
      intro hc
      obtain ⟨hc1, hc2⟩ := hc
      obtain ⟨hab1, hab2⟩ := hown (idx0 w) (idx1 w) h0 h1 hc1
      exact hw ⟨hab1, hab2, hc2⟩
    · rw [if_pos h0, if_pos h0, if_neg h1, if_neg h1]
  · rw [if_neg h0, if_neg h0]

theorem unmap_spec (pt : PageTable) (s : MState) (v : Nat) (s' : MState)
    (hInv : Inv pt.root_ppn s) (hu : pt.unmap s v = some s') :
    Inv pt.root_ppn s' ∧ s'.next = s.next ∧ s'.budget = s.budget ∧
    (∃ e, pt.translate s.mem v = some e ∧ e.is_valid = true) ∧
    pt.translate s'.mem v = some PageTableEntry.empty ∧
    (∀ w, w < 2 ^ 27 → v < 2 ^ 27 → w ≠ v →
      pt.translate s'.mem w = pt.translate s.mem w) := by
  unfold PageTable.unmap PageTable.find_pte_loc at hu
  by_cases h0 : (s.mem pt.root_ppn (idx0 v)).is_valid = true
  · rw [if_pos h0] at hu
    by_cases h1 : (s.mem (s.mem pt.root_ppn (idx0 v)).ppn (idx1 v)).is_valid = true
    · rw [if_pos h1] at hu
      dsimp only at hu
      by_cases hL : (s.mem (s.mem (s.mem pt.root_ppn (idx0 v)).ppn (idx1 v)).ppn
          (idx2 v)).is_valid = true
      · rw [if_pos hL] at hu
        injection hu with hu
        subst hu
        have hgt1 : pt.root_ppn < (s.mem pt.root_ppn (idx0 v)).ppn :=
          hInv.l1_gt (idx0 v) h0
        have hgt2 : (s.mem pt.root_ppn (idx0 v)).ppn <
            (s.mem (s.mem pt.root_ppn (idx0 v)).ppn (idx1 v)).ppn :=
          hInv.l2_gt (idx0 v) (idx1 v) h0 h1
        have hFp1 : ∀ i, (s.mem pt.root_ppn i).is_valid = true →
            (s.mem (s.mem pt.root_ppn (idx0 v)).ppn (idx1 v)).ppn ≠
              (s.mem pt.root_ppn i).ppn :=
          fun i hi => hInv.l2_ne_l1 (idx0 v) (idx1 v) i h0 h1 hi
        have e0 : (writePTE s (s.mem (s.mem pt.root_ppn (idx0 v)).ppn (idx1 v)).ppn
            (idx2 v) PageTableEntry.empty).mem pt.root_ppn (idx0 v) =
            s.mem pt.root_ppn (idx0 v) :=
          writePTE_mem_ne _ _ _ _ _ _ (fun hc => by omega)
        have e1 : (writePTE s (s.mem (s.mem pt.root_ppn (idx0 v)).ppn (idx1 v)).ppn
            (idx2 v) PageTableEntry.empty).mem (s.mem pt.root_ppn (idx0 v)).ppn
            (idx1 v) = s.mem (s.mem pt.root_ppn (idx0 v)).ppn (idx1 v) :=
          writePTE_mem_ne _ _ _ _ _ _ (fun hc => by omega)
        refine ⟨?_, writePTE_next _ _ _ _, writePTE_budget _ _ _ _, ?_, ?_, ?_⟩
        · exact inv_write_outside pt.root_ppn s _ _ _ hInv (by omega)
            (fun i hi => (hFp1 i hi))
        · exact ⟨_, translate_chain pt s.mem v h0 h1, hL⟩
        · rw [translate_def, e0, if_pos h0, e1, if_pos h1, writePTE_mem_eq]
        · intro w hw hv hne
          refine translate_write_outside pt s _ _ _ (idx0 v) (idx1 v) hInv (by omega)
            hFp1 ?_ w ?_
          · intro i j hi hj heq
            exact hInv.l2_inj i j (idx0 v) (idx1 v) hi hj h0 h1 heq
          · intro hc
            exact hne (idx_triple_inj w v hw hv hc.1 hc.2.1 hc.2.2)
      · rw [if_neg hL] at hu
        cases hu
    · rw [if_neg h1] at hu
      cases hu
  · rw [if_neg h0] at hu
    cases hu

/-- C2 (amended): for a well-formed table on which `v` is currently mapped
(the translation is a valid entry), unmapping succeeds, and the subsequent
`translate(v)` returns `some` of the empty entry — an entry that is not
valid, but an entry nonetheless (only invalid intermediate levels make the
lookup absent; the leaf is returned regardless of its validity). -/
theorem C2_translate_after_unmap_empty (pt : PageTable) (s : MState) (v : Nat)
    (e : PageTableEntry) (hInv : Inv pt.root_ppn s)
    (hmapped : pt.translate s.mem v = some e) (hval : e.is_valid = true) :
    ∃ s', pt.unmap s v = some s' ∧
      pt.translate s'.mem v = some PageTableEntry.empty ∧
      PageTableEntry.empty.is_valid = false := by
  obtain ⟨h0, h1, hleaf⟩ := translate_some_elim pt s.mem v e hmapped
  have hu : pt.unmap s v = some (writePTE s
      (s.mem (s.mem pt.root_ppn (idx0 v)).ppn (idx1 v)).ppn (idx2 v)
      PageTableEntry.empty) := by
    unfold PageTable.unmap PageTable.find_pte_loc
    rw [if_pos h0, if_pos h1]
    dsimp only
    rw [if_pos (by rw [hleaf]; exact hval)]
  exact ⟨_, hu, (unmap_spec pt s v _ hInv hu).2.2.2.2.1, rfl⟩

theorem mem9_0_valid (i : Nat) (h : (ms9.mem 0 i).is_valid = true) : i = 0 := by
  by_cases h0 : i = 0
  · exact h0
  · exfalso
    have hm : ms9.mem 0 i = ⟨0⟩ := by
      show mem9 0 i = ⟨0⟩
      unfold mem9
      rw [if_neg (by omega), if_neg (by omega), if_neg (by omega)]
    rw [hm] at h
    exact absurd h (by decide)

theorem mem9_1_valid (j : Nat) (h : (ms9.mem 1 j).is_valid = true) : j = 0 := by
  by_cases h0 : j = 0
  · exact h0
  · exfalso
    have hm : ms9.mem 1 j = ⟨0⟩ := by
      show mem9 1 j = ⟨0⟩
      unfold mem9
      rw [if_neg (by omega), if_neg (by omega), if_neg (by omega)]
    rw [hm] at h
    exact absurd h (by decide)

theorem inv_ms9 : Inv 0 ms9 := by
  refine ⟨by decide, by decide, ?_, ?_, ?_, ?_, ?_, ?_, ?_⟩
  · intro i hi
    have h := mem9_0_valid i hi
    subst h
    decide
  · intro i hi
    have h := mem9_0_valid i hi
    subst h
    decide
  · intro i j hi hj
    have h := mem9_0_valid i hi
    subst h
    have hj' : (ms9.mem 1 j).is_valid = true := hj
    have h2 := mem9_1_valid j hj'
    subst h2
    decide
  · intro i j hi hj
    have h := mem9_0_valid i hi
    subst h
    have hj' : (ms9.mem 1 j).is_valid = true := hj
    have h2 := mem9_1_valid j hj'
    subst h2
    decide
  · intro i i' hi hi' _
    have h := mem9_0_valid i hi
    subst h
    have h' := mem9_0_valid i' hi'
    subst h'
    rfl
  · intro i j i' hi hj hi'
    have h := mem9_0_valid i hi
    subst h
    have h' := mem9_0_valid i' hi'
    subst h'
    have hj' : (ms9.mem 1 j).is_valid = true := hj
    have h2 := mem9_1_valid j hj'
    subst h2
    decide
  · intro i j i' j' hi hj hi' hj' _
    have h := mem9_0_valid i hi
    subst h
    have h2 := mem9_0_valid i' hi'
    subst h2
    have hjj : (ms9.mem 1 j).is_valid = true := hj
    have hjj' : (ms9.mem 1 j').is_valid = true := hj'
    have h3 := mem9_1_valid j hjj
    subst h3
    have h4 := mem9_1_valid j' hjj'
    subst h4
    exact ⟨rfl, rfl⟩

/-- C2 witness: on the concrete mapped state `ms9` (page 0 mapped valid with
bits 7171), unmapping page 0 succeeds and translate afterwards yields the
invalid empty entry. -/
theorem C2_witness :
    ∃ s', PageTable.unmap cur9 ms9 0 = some s' ∧
      PageTable.translate cur9 s'.mem 0 = some PageTableEntry.empty ∧
      PageTableEntry.empty.is_valid = false :=
  C2_translate_after_unmap_empty cur9 ms9 0 ⟨7171⟩ inv_ms9 rfl rfl

theorem walkStep_alloc_none (pt : PageTable) (s : MState) (t i : Nat)
    (h : (s.mem t i).is_valid = false) (ha : frame_alloc s = none) :
    pt.walkStep s t i = none := by
  unfold PageTable.walkStep
  rw [if_neg (by simp [h]), ha]

/-- Writing a pointer to a fresh frame `F` into an invalid slot of the root
table preserves the invariant (the fresh frame is cleared). -/
theorem inv_extend_l0 (root : Nat) (s1 : MState) (i0 F : Nat)
    (hInv : Inv root s1)
    (hFp1 : ∀ i, (s1.mem root i).is_valid = true → (s1.mem root i).ppn < F)
    (hFp2 : ∀ i j, (s1.mem root i).is_valid = true →
      (s1.mem (s1.mem root i).ppn j).is_valid = true →
      (s1.mem (s1.mem root i).ppn j).ppn < F)
    (hFgt : root < F) (hFlt : F < s1.next)
    (hFempty : ∀ j, s1.mem F j = PageTableEntry.empty) :
    Inv root (writePTE s1 root i0 (PageTableEntry.new F PTEFlags.V)) := by
  have hF44 : F < 2 ^ 44 := by have := hInv.nextLe; omega
  set W := writePTE s1 root i0 (PageTableEntry.new F PTEFlags.V) with hW
  have hrweq : W.mem root i0 = PageTableEntry.new F PTEFlags.V := writePTE_mem_eq _ _ _ _
  have hrwne : ∀ i, i ≠ i0 → W.mem root i = s1.mem root i :=
    fun i hne => writePTE_mem_ne _ _ _ _ _ _ (fun hc => hne hc.2)
  have hrow : ∀ q j, q ≠ root → W.mem q j = s1.mem q j :=
    fun q j hne => writePTE_mem_ne _ _ _ _ _ _ (fun hc => hne hc.1)
  have hnext : W.next = s1.next := writePTE_next _ _ _ _
  have hp1ne : ∀ i, (s1.mem root i).is_valid = true → (s1.mem root i).ppn ≠ root :=
    fun i hi => by have := hInv.l1_gt i hi; omega
  refine ⟨by rw [hnext]; exact hInv.rootLt, by rw [hnext]; exact hInv.nextLe,
    ?_, ?_, ?_, ?_, ?_, ?_, ?_⟩
  · intro i hi
    by_cases hc : i = i0
    · subst hc
      rw [hrweq, new_V_ppn F hF44]
      exact hFgt
    · rw [hrwne i hc] at hi ⊢
      exact hInv.l1_gt i hi
  · intro i hi
    rw [hnext]
    by_cases hc : i = i0
    · subst hc
      rw [hrweq, new_V_ppn F hF44]
      exact hFlt
    · rw [hrwne i hc] at hi ⊢
      exact hInv.l1_lt i hi
  · intro i j hi hj
    by_cases hc : i = i0
    · subst hc
      rw [hrweq, new_V_ppn F hF44] at hj
      rw [hrow F j (by omega), hFempty j] at hj
      exact absurd hj (by decide)
    · rw [hrwne i hc] at hi hj ⊢
      rw [hrow _ j (hp1ne i hi)] at hj ⊢
      exact hInv.l2_gt i j hi hj
  · intro i j hi hj
    rw [hnext]
    by_cases hc : i = i0
    · subst hc
      rw [hrweq, new_V_ppn F hF44] at hj
      rw [hrow F j (by omega), hFempty j] at hj
      exact absurd hj (by decide)
    · rw [hrwne i hc] at hi hj ⊢
      rw [hrow _ j (hp1ne i hi)] at hj ⊢
      exact hInv.l2_lt i j hi hj
  · intro i i' hi hi' heq
    by_cases hc : i = i0 <;> by_cases hc' : i' = i0
    · rw [hc, hc']
    · exfalso
      subst hc
      rw [hrweq, new_V_ppn F hF44] at heq
      rw [hrwne i' hc'] at hi' heq
      have := hFp1 i' hi'
      omega
    · exfalso
      subst hc'
      rw [hrweq, new_V_ppn F hF44] at heq
      rw [hrwne i hc] at hi heq
      have := hFp1 i hi
      omega
    · rw [hrwne i hc] at hi heq
      rw [hrwne i' hc'] at hi' heq
      exact hInv.l1_inj i i' hi hi' heq
  · intro i j i' hi hj hi'
    by_cases hc : i = i0
    · exfalso
      subst hc
      rw [hrweq, new_V_ppn F hF44] at hj
      rw [hrow F j (by omega), hFempty j] at hj
      exact absurd hj (by decide)
    · rw [hrwne i hc] at hi hj ⊢
      rw [hrow _ j (hp1ne i hi)] at hj ⊢
      by_cases hc' : i' = i0
      · subst hc'
        rw [hrweq, new_V_ppn F hF44]
        have := hFp2 i j hi hj
        omega
      · rw [hrwne i' hc'] at hi' ⊢
        exact hInv.l2_ne_l1 i j i' hi hj hi'
  · intro i j i' j' hi hj hi' hj' heq
    by_cases hc : i = i0
    · exfalso
      subst hc
      rw [hrweq, new_V_ppn F hF44] at hj
      rw [hrow F j (by omega), hFempty j] at hj
      exact absurd hj (by decide)
    · by_cases hc' : i' = i0
      · exfalso
        subst hc'
        rw [hrweq, new_V_ppn F hF44] at hj'
        rw [hrow F j' (by omega), hFempty j'] at hj'
        exact absurd hj' (by decide)
      · rw [hrwne i hc] at hi hj heq
        rw [hrwne i' hc'] at hi' hj' heq
        rw [hrow _ j (hp1ne i hi)] at hj heq
        rw [hrow _ j' (hp1ne i' hi')] at hj' heq
        exact hInv.l2_inj i j i' j' hi hj hi' hj' heq

/-- Writing a pointer to a fresh frame `F` into an invalid slot of an
existing level-1 table preserves the invariant. -/
theorem inv_extend_l1 (root : Nat) (s1 : MState) (t1 i1 F : Nat)
    (hInv : Inv root s1)
    (hex : ∃ i0, (s1.mem root i0).is_valid = true ∧ (s1.mem root i0).ppn = t1)
    (hslot : (s1.mem t1 i1).is_valid = false)
    (hFp1 : ∀ i, (s1.mem root i).is_valid = true → (s1.mem root i).ppn < F)
    (hFp2 : ∀ i j, (s1.mem root i).is_valid = true →
      (s1.mem (s1.mem root i).ppn j).is_valid = true →
      (s1.mem (s1.mem root i).ppn j).ppn < F)
    (hFlt : F < s1.next) :
    Inv root (writePTE s1 t1 i1 (PageTableEntry.new F PTEFlags.V)) := by
  obtain ⟨i0, hi0, ht1⟩ := hex
  have hF44 : F < 2 ^ 44 := by have := hInv.nextLe; omega
  have ht1gt : root < t1 := by have := hInv.l1_gt i0 hi0; omega
  have ht1F : t1 < F := by have := hFp1 i0 hi0; omega
  set W := writePTE s1 t1 i1 (PageTableEntry.new F PTEFlags.V) with hW
  have hrw0 : ∀ i, W.mem root i = s1.mem root i :=
    fun i => writePTE_mem_ne _ _ _ _ _ _ (fun hc => by omega)
  have hrweq : W.mem t1 i1 = PageTableEntry.new F PTEFlags.V := writePTE_mem_eq _ _ _ _
  have hrwne : ∀ q j, ¬(q = t1 ∧ j = i1) → W.mem q j = s1.mem q j :=
    fun q j hc => writePTE_mem_ne _ _ _ _ _ _ hc
  have hnext : W.next = s1.next := writePTE_next _ _ _ _
  refine ⟨by rw [hnext]; exact hInv.rootLt, by rw [hnext]; exact hInv.nextLe,
    ?_, ?_, ?_, ?_, ?_, ?_, ?_⟩
  · intro i hi
    rw [hrw0 i] at hi ⊢
    exact hInv.l1_gt i hi
  · intro i hi
    rw [hnext, hrw0 i] at *
    exact hInv.l1_lt i hi
  · intro i j hi hj
    rw [hrw0 i] at hi hj ⊢
    by_cases hc : (s1.mem root i).ppn = t1 ∧ j = i1
    · obtain ⟨hc1, hc2⟩ := hc
      rw [hc1, hc2, hrweq] at hj ⊢
      rw [new_V_ppn F hF44]
      exact ht1F
    · rw [hrwne _ j hc] at hj ⊢
      exact hInv.l2_gt i j hi hj
  · intro i j hi hj
    rw [hnext]
    rw [hrw0 i] at hi hj ⊢
    by_cases hc : (s1.mem root i).ppn = t1 ∧ j = i1
    · obtain ⟨hc1, hc2⟩ := hc
      rw [hc1, hc2, hrweq] at hj ⊢
      rw [new_V_ppn F hF44]
      exact hFlt
    · rw [hrwne _ j hc] at hj ⊢
      exact hInv.l2_lt i j hi hj
  · intro i i' hi hi' heq
    rw [hrw0 i] at hi heq
    rw [hrw0 i'] at hi' heq
    exact hInv.l1_inj i i' hi hi' heq
  · intro i j i' hi hj hi'
    rw [hrw0 i] at hi hj ⊢
    rw [hrw0 i'] at hi' ⊢
    by_cases hc : (s1.mem root i).ppn = t1 ∧ j = i1
    · obtain ⟨hc1, hc2⟩ := hc
      rw [hc1, hc2, hrweq, new_V_ppn F hF44]
      have := hFp1 i' hi'
      omega
    · rw [hrwne _ j hc] at hj ⊢
      exact hInv.l2_ne_l1 i j i' hi hj hi'
  · intro i j i' j' hi hj hi' hj' heq
    rw [hrw0 i] at hi hj heq
    rw [hrw0 i'] at hi' hj' heq
    by_cases hc : (s1.mem root i).ppn = t1 ∧ j = i1
    · by_cases hc' : (s1.mem root i').ppn = t1 ∧ j' = i1
      · have hii : i = i' := hInv.l1_inj i i' hi hi' (by rw [hc.1, hc'.1])
        exact ⟨hii, by rw [hc.2, hc'.2]⟩
      · exfalso
        rw [hc.1, hc.2, hrweq, new_V_ppn F hF44] at heq
        rw [hrwne _ j' hc'] at hj' heq
        have := hFp2 i' j' hi' hj'
        omega
    · by_cases hc' : (s1.mem root i').ppn = t1 ∧ j' = i1
      · exfalso
        rw [hc'.1, hc'.2, hrweq, new_V_ppn F hF44] at heq
        rw [hrwne _ j hc] at hj heq
        have := hFp2 i j hi hj
        omega
      · rw [hrwne _ j hc] at hj heq
        rw [hrwne _ j' hc'] at hj' heq
        exact hInv.l2_inj i j i' j' hi hj hi' hj' heq

/-- A write to an invalid root slot cannot disturb the translation of a page
whose walk is currently complete. -/
theorem translate_preserve_l0_write (pt : PageTable) (s1 : MState) (i0 F : Nat)
    (hInv : Inv pt.root_ppn s1)
    (hslot : (s1.mem pt.root_ppn i0).is_valid = false)
    (w : Nat) (e : PageTableEntry) (hw : pt.translate s1.mem w = some e) :
    pt.translate (writePTE s1 pt.root_ppn i0 (PageTableEntry.new F PTEFlags.V)).mem w =
      some e := by
  obtain ⟨h0, h1, hleaf⟩ := translate_some_elim pt s1.mem w e hw
  have hne0 : idx0 w ≠ i0 := by
    intro hc
    rw [hc] at h0
    rw [h0] at hslot
    cases hslot
  have hq1 : (s1.mem pt.root_ppn (idx0 w)).ppn ≠ pt.root_ppn := by
    have := hInv.l1_gt (idx0 w) h0
    omega
  have hq2 : (s1.mem (s1.mem pt.root_ppn (idx0 w)).ppn (idx1 w)).ppn ≠ pt.root_ppn := by
    have := hInv.l1_gt (idx0 w) h0
    have := hInv.l2_gt (idx0 w) (idx1 w) h0 h1
    omega
  rw [translate_def]
  rw [writePTE_mem_ne _ _ _ _ _ _ (fun hc => hne0 hc.2)]
  rw [if_pos h0]
  rw [writePTE_mem_ne _ _ _ _ _ _ (fun hc => hq1 hc.1)]
  rw [if_pos h1]
  rw [writePTE_mem_ne _ _ _ _ _ _ (fun hc => hq2 hc.1)]
  rw [hleaf]

/-- A write to an invalid slot of an existing level-1 table cannot disturb
the translation of a page whose walk is currently complete. -/
theorem translate_preserve_l1_write (pt : PageTable) (s1 : MState) (t1 i1 F : Nat)
    (hInv : Inv pt.root_ppn s1)
    (hex : ∃ i0, (s1.mem pt.root_ppn i0).is_valid = true ∧
      (s1.mem pt.root_ppn i0).ppn = t1)
    (hslot : (s1.mem t1 i1).is_valid = false)
    (w : Nat) (e : PageTableEntry) (hw : pt.translate s1.mem w = some e) :
    pt.translate (writePTE s1 t1 i1 (PageTableEntry.new F PTEFlags.V)).mem w = some e := by
  obtain ⟨i0, hi0, ht1⟩ := hex
  obtain ⟨h0, h1, hleaf⟩ := translate_some_elim pt s1.mem w e hw
  have ht1gt : pt.root_ppn < t1 := by have := hInv.l1_gt i0 hi0; omega
  have hq1 : ¬((s1.mem pt.root_ppn (idx0 w)).ppn = t1 ∧ idx1 w = i1) := by
    intro hc
    have hii : idx0 w = i0 := hInv.l1_inj (idx0 w) i0 h0 hi0 (by rw [hc.1, ht1])
    rw [hc.1, hc.2] at h1
    rw [h1] at hslot
    cases hslot
  have hq2 : (s1.mem (s1.mem pt.root_ppn (idx0 w)).ppn (idx1 w)).ppn ≠ t1 := by
    rw [← ht1]
    exact hInv.l2_ne_l1 (idx0 w) (idx1 w) i0 h0 h1 hi0
  rw [translate_def]
  rw [writePTE_mem_ne _ _ _ _ _ _ (fun hc => by omega)]
  rw [if_pos h0]
  rw [writePTE_mem_ne _ _ _ _ _ _ hq1]
  rw [if_pos h1]
  rw [writePTE_mem_ne _ _ _ _ _ _ (fun hc => hq2 hc.1)]
  rw [hleaf]

theorem bool_not_true {b : Bool} (h : ¬ b = true) : b = false := by
  cases b
  · rfl
  · exact absurd rfl h

/-- Effect of a successful `PageTable::map` on a well-formed tree: the root is
unchanged, well-formedness is preserved, the allocator counter only grows,
the mapped page translates to the freshly written leaf entry, and every
other page that already had a (valid-walk) translation keeps it. -/
theorem map_spec (pt : PageTable) (s : MState) (v p f : Nat) (pt' : PageTable) (s' : MState)
    (hInv : Inv pt.root_ppn s)
    (hmap : PageTable.map pt s v p f = some (pt', s')) :
    pt'.root_ppn = pt.root_ppn ∧ Inv pt.root_ppn s' ∧ s.next ≤ s'.next ∧
    pt.translate s'.mem v = some (PageTableEntry.new p (f ||| PTEFlags.V)) ∧
    (∀ w e, w < 2 ^ 27 → v < 2 ^ 27 → w ≠ v → pt.translate s.mem w = some e →
      pt.translate s'.mem w = some e) := by
  unfold PageTable.map PageTable.find_pte_create at hmap
  by_cases h0 : (s.mem pt.root_ppn (idx0 v)).is_valid = true
  · rw [walkStep_valid pt s _ _ h0] at hmap
    simp only [Option.bind_eq_bind, Option.some_bind] at hmap
    have hb1 : pt.root_ppn < (s.mem pt.root_ppn (idx0 v)).ppn := hInv.l1_gt _ h0
    have hb1' : (s.mem pt.root_ppn (idx0 v)).ppn < s.next := hInv.l1_lt _ h0
    by_cases h1 : (s.mem (s.mem pt.root_ppn (idx0 v)).ppn (idx1 v)).is_valid = true
    · -- both intermediate levels already exist
      rw [walkStep_valid pt s _ _ h1] at hmap
      simp only [Option.some_bind] at hmap
      have hb2 : (s.mem pt.root_ppn (idx0 v)).ppn <
          (s.mem (s.mem pt.root_ppn (idx0 v)).ppn (idx1 v)).ppn :=
        hInv.l2_gt _ _ h0 h1
      by_cases hL : (s.mem (s.mem (s.mem pt.root_ppn (idx0 v)).ppn (idx1 v)).ppn
          (idx2 v)).is_valid = true
      · rw [if_pos hL] at hmap
        cases hmap
      · rw [if_neg (by simp [hL])] at hmap
        rw [Option.some.injEq, Prod.mk.injEq] at hmap
        obtain ⟨hpt, hs⟩ := hmap
        subst hpt
        subst hs
        have hFp1 : ∀ i, (s.mem pt.root_ppn i).is_valid = true →
            (s.mem (s.mem pt.root_ppn (idx0 v)).ppn (idx1 v)).ppn ≠
              (s.mem pt.root_ppn i).ppn :=
          fun i hi => hInv.l2_ne_l1 (idx0 v) (idx1 v) i h0 h1 hi
        refine ⟨rfl, ?_, by rw [writePTE_next], ?_, ?_⟩
        · exact inv_write_outside pt.root_ppn s _ _ _ hInv (by omega) hFp1
        · rw [translate_def]
          rw [writePTE_mem_ne _ _ _ _ _ _ (fun hc => by omega)]
          rw [if_pos h0]
          rw [writePTE_mem_ne _ _ _ _ _ _ (fun hc => by omega)]
          rw [if_pos h1]
          rw [writePTE_mem_eq]
        · intro w e hw hv hne htr
          rw [translate_write_outside pt s _ _ _ (idx0 v) (idx1 v) hInv (by omega) hFp1
            (fun i j hi hj heq => hInv.l2_inj i j (idx0 v) (idx1 v) hi hj h0 h1 heq) w
            (fun hc => hne (idx_triple_inj w v hw hv hc.1 hc.2.1 hc.2.2))]
          exact htr
    · -- level-1 table must be allocated
      have h1' := bool_not_true h1
      cases ha : frame_alloc s with
      | none =>
        rw [walkStep_alloc_none pt s _ _ h1' ha] at hmap
        simp only [Option.none_bind] at hmap
        cases hmap
      | some r =>
        obtain ⟨F, s1⟩ := r
        obtain ⟨hFeq, hs1next, hlt44, hother, hclear, _⟩ := frame_alloc_spec s F s1 ha
        rw [walkStep_alloc pt s _ _ h1' F s1 ha] at hmap
        simp only [Option.some_bind] at hmap
        rw [new_V_ppn F (by omega)] at hmap
        have hleafrd : (writePTE s1 (s.mem pt.root_ppn (idx0 v)).ppn (idx1 v)
            (PageTableEntry.new F PTEFlags.V)).mem F (idx2 v) = PageTableEntry.empty := by
          rw [writePTE_mem_ne _ _ _ _ _ _ (fun hc => by omega), hFeq]
          exact hclear _
        rw [hleafrd] at hmap
        rw [if_neg (by decide)] at hmap
        rw [Option.some.injEq, Prod.mk.injEq] at hmap
        obtain ⟨hpt, hs⟩ := hmap
        subst hs
        have hInv1 : Inv pt.root_ppn s1 := frame_alloc_inv pt.root_ppn s F s1 hInv ha
        have hroot1 : ∀ i, s1.mem pt.root_ppn i = s.mem pt.root_ppn i :=
          fun i => hother _ i (by have := hInv.rootLt; omega)
        have hrow1 : ∀ q j, q < s.next → s1.mem q j = s.mem q j :=
          fun q j hq => hother q j (by omega)
        have hex1 : ∃ i0, (s1.mem pt.root_ppn i0).is_valid = true ∧
            (s1.mem pt.root_ppn i0).ppn = (s.mem pt.root_ppn (idx0 v)).ppn :=
          ⟨idx0 v, by rw [hroot1]; exact h0, by rw [hroot1]⟩
        have hslot1 : (s1.mem (s.mem pt.root_ppn (idx0 v)).ppn (idx1 v)).is_valid = false := by
          rw [hrow1 _ _ hb1']
          exact h1'
        have hFp1s1 : ∀ i, (s1.mem pt.root_ppn i).is_valid = true →
            (s1.mem pt.root_ppn i).ppn < F := by
          intro i hi
          rw [hroot1] at hi ⊢
          have := hInv.l1_lt i hi
          omega
        have hFp2s1 : ∀ i j, (s1.mem pt.root_ppn i).is_valid = true →
            (s1.mem (s1.mem pt.root_ppn i).ppn j).is_valid = true →
            (s1.mem (s1.mem pt.root_ppn i).ppn j).ppn < F := by
          intro i j hi hj
          rw [hroot1] at hi hj ⊢
          rw [hrow1 _ j (hInv.l1_lt i hi)] at hj ⊢
          have := hInv.l2_lt i j hi hj
          omega
        have hInv2 : Inv pt.root_ppn (writePTE s1 (s.mem pt.root_ppn (idx0 v)).ppn (idx1 v)
            (PageTableEntry.new F PTEFlags.V)) :=
          inv_extend_l1 pt.root_ppn s1 _ _ F hInv1 hex1 hslot1 hFp1s1 hFp2s1 (by omega)
        have hroot2 : ∀ i, (writePTE s1 (s.mem pt.root_ppn (idx0 v)).ppn (idx1 v)
            (PageTableEntry.new F PTEFlags.V)).mem pt.root_ppn i = s.mem pt.root_ppn i := by
          intro i
          rw [writePTE_mem_ne _ _ _ _ _ _ (fun hc => by omega), hroot1]
        have hFp1s2 : ∀ i, ((writePTE s1 (s.mem pt.root_ppn (idx0 v)).ppn (idx1 v)
            (PageTableEntry.new F PTEFlags.V)).mem pt.root_ppn i).is_valid = true →
            F ≠ ((writePTE s1 (s.mem pt.root_ppn (idx0 v)).ppn (idx1 v)
              (PageTableEntry.new F PTEFlags.V)).mem pt.root_ppn i).ppn := by
          intro i hi
          rw [hroot2] at hi ⊢
          have := hInv.l1_lt i hi
          omega
        have hown2 : ∀ i j, ((writePTE s1 (s.mem pt.root_ppn (idx0 v)).ppn (idx1 v)
            (PageTableEntry.new F PTEFlags.V)).mem pt.root_ppn i).is_valid = true →
            (((writePTE s1 (s.mem pt.root_ppn (idx0 v)).ppn (idx1 v)
              (PageTableEntry.new F PTEFlags.V)).mem
              (((writePTE s1 (s.mem pt.root_ppn (idx0 v)).ppn (idx1 v)
                (PageTableEntry.new F PTEFlags.V)).mem pt.root_ppn i).ppn) j)).is_valid =
              true →
            (((writePTE s1 (s.mem pt.root_ppn (idx0 v)).ppn (idx1 v)
              (PageTableEntry.new F PTEFlags.V)).mem
              (((writePTE s1 (s.mem pt.root_ppn (idx0 v)).ppn (idx1 v)
                (PageTableEntry.new F PTEFlags.V)).mem pt.root_ppn i).ppn) j)).ppn = F →
            i = idx0 v ∧ j = idx1 v := by
          intro i j hi hj heq
          rw [hroot2] at hi hj heq
          by_cases hpi : (s.mem pt.root_ppn i).ppn = (s.mem pt.root_ppn (idx0 v)).ppn
          · have hieq : i = idx0 v := hInv.l1_inj i (idx0 v) hi h0 hpi
            subst hieq
            by_cases hj1 : j = idx1 v
            · exact ⟨rfl, hj1⟩
            · exfalso
              rw [writePTE_mem_ne _ _ _ _ _ _ (fun hc => hj1 hc.2)] at hj heq
              rw [hrow1 _ j hb1'] at hj heq
              have := hInv.l2_lt (idx0 v) j h0 hj
              omega
          · exfalso
            rw [writePTE_mem_ne _ _ _ _ _ _ (fun hc => hpi hc.1)] at hj heq
            rw [hrow1 _ j (hInv.l1_lt i hi)] at hj heq
            have := hInv.l2_lt i j hi hj
            omega
        refine ⟨by rw [← hpt], ?_, ?_, ?_, ?_⟩
        · exact inv_write_outside pt.root_ppn _ F (idx2 v) _ hInv2
            (by have := hInv.rootLt; omega) hFp1s2
        · rw [writePTE_next, writePTE_next]
          omega
        · rw [translate_def]
          rw [writePTE_mem_ne _ _ _ _ _ _ (fun hc => by have := hInv.rootLt; omega)]
          rw [hroot2, if_pos h0]
          rw [writePTE_mem_ne _ _ _ _ _ _ (fun hc => by omega)]
          rw [writePTE_mem_eq]
          rw [if_pos (new_V_valid F), new_V_ppn F (by omega)]
          rw [writePTE_mem_eq]
        · intro w e hw hv hne htr
          have t1 : pt.translate s1.mem w = some e := by
            rw [translate_frame_alloc pt s F s1 hInv ha w]
            exact htr
          have t2 := translate_preserve_l1_write pt s1 _ (idx1 v) F hInv1 hex1 hslot1 w e t1
          rw [translate_write_outside pt _ F (idx2 v) _ (idx0 v) (idx1 v) hInv2
            (by have := hInv.rootLt; omega) hFp1s2 hown2 w
            (fun hc => hne (idx_triple_inj w v hw hv hc.1 hc.2.1 hc.2.2))]
          exact t2
  · -- both intermediate levels must be allocated
    have h0' := bool_not_true h0
    cases ha1 : frame_alloc s with
    | none =>
      rw [walkStep_alloc_none pt s _ _ h0' ha1] at hmap
      simp only [Option.bind_eq_bind, Option.none_bind] at hmap
      cases hmap
    | some r1 =>
      obtain ⟨F1, s1⟩ := r1
      obtain ⟨hF1eq, hs1next, hlt44, hother1, hclear1, _⟩ := frame_alloc_spec s F1 s1 ha1
      rw [walkStep_alloc pt s _ _ h0' F1 s1 ha1] at hmap
      simp only [Option.bind_eq_bind, Option.some_bind] at hmap
      rw [new_V_ppn F1 (by omega)] at hmap
      have hInv1 : Inv pt.root_ppn s1 := frame_alloc_inv pt.root_ppn s F1 s1 hInv ha1
      have hrootF1 : pt.root_ppn ≠ F1 := by have := hInv.rootLt; omega
      have h1rd : (writePTE s1 pt.root_ppn (idx0 v)
          (PageTableEntry.new F1 PTEFlags.V)).mem F1 (idx1 v) = PageTableEntry.empty := by
        rw [writePTE_mem_ne _ _ _ _ _ _ (fun hc => hrootF1 hc.1.symm), hF1eq]
        exact hclear1 _
      have hFp1s1 : ∀ i, (s1.mem pt.root_ppn i).is_valid = true →
          (s1.mem pt.root_ppn i).ppn < F1 := by
        intro i hi
        rw [hother1 _ i (by have := hInv.rootLt; omega)] at hi ⊢
        have := hInv.l1_lt i hi
        omega
      have hFp2s1 : ∀ i j, (s1.mem pt.root_ppn i).is_valid = true →
          (s1.mem (s1.mem pt.root_ppn i).ppn j).is_valid = true →
          (s1.mem (s1.mem pt.root_ppn i).ppn j).ppn < F1 := by
        intro i j hi hj
        rw [hother1 _ i (by have := hInv.rootLt; omega)] at hi hj ⊢
        rw [hother1 _ j (by have := hInv.l1_lt i hi; omega)] at hj ⊢
        have := hInv.l2_lt i j hi hj
        omega
      have hslot1 : (s1.mem pt.root_ppn (idx0 v)).is_valid = false := by
        rw [hother1 _ _ (by have := hInv.rootLt; omega)]
        exact h0'
      have hInv2 : Inv pt.root_ppn (writePTE s1 pt.root_ppn (idx0 v)
          (PageTableEntry.new F1 PTEFlags.V)) :=
        inv_extend_l0 pt.root_ppn s1 (idx0 v) F1 hInv1 hFp1s1 hFp2s1
          (by have := hInv.rootLt; omega) (by omega)
          (fun j => by rw [hF1eq] at *; exact hclear1 j)
      cases ha2 : frame_alloc (writePTE s1 pt.root_ppn (idx0 v)
          (PageTableEntry.new F1 PTEFlags.V)) with
      | none =>
        rw [walkStep_alloc_none _ _ _ _ (by rw [h1rd]; rfl) ha2] at hmap
        simp only [Option.none_bind] at hmap
        cases hmap
      | some r2 =>
        obtain ⟨F2, s3⟩ := r2
        obtain ⟨hF2eq, hs3next, hlt44', hother2, hclear2, _⟩ := frame_alloc_spec _ F2 s3 ha2
        rw [writePTE_next] at hF2eq hs3next hlt44'
        rw [walkStep_alloc _ _ _ _ (by rw [h1rd]; rfl) F2 s3 ha2] at hmap
        simp only [Option.some_bind] at hmap
        rw [new_V_ppn F2 (by omega)] at hmap
        have hF1F2 : F1 ≠ F2 := by omega
        have hleafrd : (writePTE s3 F1 (idx1 v) (PageTableEntry.new F2 PTEFlags.V)).mem F2
            (idx2 v) = PageTableEntry.empty := by
          rw [writePTE_mem_ne _ _ _ _ _ _ (fun hc => hF1F2 hc.1.symm), hF2eq]
          have := hclear2 (idx2 v)
          rw [writePTE_next] at this
          exact this
        rw [hleafrd] at hmap
        rw [if_neg (by decide)] at hmap
        rw [Option.some.injEq, Prod.mk.injEq] at hmap
        obtain ⟨hpt, hs⟩ := hmap
        subst hs
        have hInv3 : Inv pt.root_ppn s3 := frame_alloc_inv pt.root_ppn _ F2 s3 hInv2 ha2
        have hroot3 : ∀ i, s3.mem pt.root_ppn i = (writePTE s1 pt.root_ppn (idx0 v)
            (PageTableEntry.new F1 PTEFlags.V)).mem pt.root_ppn i := by
          intro i
          refine hother2 _ i ?_
          rw [writePTE_next]
          have := hInv.rootLt
          omega
        have hroot3a : s3.mem pt.root_ppn (idx0 v) = PageTableEntry.new F1 PTEFlags.V := by
          rw [hroot3, writePTE_mem_eq]
        have hroot3b : ∀ i, i ≠ idx0 v → s3.mem pt.root_ppn i = s.mem pt.root_ppn i := by
          intro i hne
          rw [hroot3, writePTE_mem_ne _ _ _ _ _ _ (fun hc => hne hc.2),
            hother1 _ i (by have := hInv.rootLt; omega)]
        have hex3 : ∃ i0, (s3.mem pt.root_ppn i0).is_valid = true ∧
            (s3.mem pt.root_ppn i0).ppn = F1 :=
          ⟨idx0 v, by rw [hroot3a]; exact new_V_valid F1,
            by rw [hroot3a]; exact new_V_ppn F1 (by omega)⟩
        have hslot3 : (s3.mem F1 (idx1 v)).is_valid = false := by
          have h := hother2 F1 (idx1 v) (by rw [writePTE_next]; omega)
          rw [h, h1rd]
          rfl
        have hFp1s3 : ∀ i, (s3.mem pt.root_ppn i).is_valid = true →
            (s3.mem pt.root_ppn i).ppn < F2 := by
          intro i hi
          by_cases hc : i = idx0 v
          · subst hc
            rw [hroot3a] at hi ⊢
            rw [new_V_ppn F1 (by omega)]
            omega
          · rw [hroot3b i hc] at hi ⊢
            have := hInv.l1_lt i hi
            omega
        have hFp2s3 : ∀ i j, (s3.mem pt.root_ppn i).is_valid = true →
            (s3.mem (s3.mem pt.root_ppn i).ppn j).is_valid = true →
            (s3.mem (s3.mem pt.root_ppn i).ppn j).ppn < F2 := by
          intro i j hi hj
          by_cases hc : i = idx0 v
          · subst hc
            rw [hroot3a, new_V_ppn F1 (by omega)] at hj
            have h := hother2 F1 j (by rw [writePTE_next]; omega)
            rw [h, writePTE_mem_ne _ _ _ _ _ _ (fun hc2 => hrootF1 hc2.1.symm),
              hF1eq] at hj
            rw [hclear1 j] at hj
            exact absurd hj (by decide)
          · rw [hroot3b i hc] at hi hj ⊢
            have hlt : (s.mem pt.root_ppn i).ppn < s.next := hInv.l1_lt i hi
            have h := hother2 (s.mem pt.root_ppn i).ppn j (by rw [writePTE_next]; omega)
            rw [h, writePTE_mem_ne _ _ _ _ _ _
              (fun hc2 => by have := hInv.l1_gt i hi; omega),
              hother1 _ j (by omega)] at hj ⊢
            have := hInv.l2_lt i j hi hj
            omega
        have hInv4 : Inv pt.root_ppn (writePTE s3 F1 (idx1 v)
            (PageTableEntry.new F2 PTEFlags.V)) :=
          inv_extend_l1 pt.root_ppn s3 F1 (idx1 v) F2 hInv3 hex3 hslot3 hFp1s3 hFp2s3
            (by omega)
        have hroot4 : ∀ i, (writePTE s3 F1 (idx1 v)
            (PageTableEntry.new F2 PTEFlags.V)).mem pt.root_ppn i = s3.mem pt.root_ppn i :=
          fun i => writePTE_mem_ne _ _ _ _ _ _ (fun hc => hrootF1 hc.1)
        have hFp1s4 : ∀ i, ((writePTE s3 F1 (idx1 v)
            (PageTableEntry.new F2 PTEFlags.V)).mem pt.root_ppn i).is_valid = true →
            F2 ≠ ((writePTE s3 F1 (idx1 v)
              (PageTableEntry.new F2 PTEFlags.V)).mem pt.root_ppn i).ppn := by
          intro i hi
          rw [hroot4] at hi ⊢
          have := hFp1s3 i hi
          omega
        have hown4 : ∀ i j, ((writePTE s3 F1 (idx1 v)
            (PageTableEntry.new F2 PTEFlags.V)).mem pt.root_ppn i).is_valid = true →
            (((writePTE s3 F1 (idx1 v) (PageTableEntry.new F2 PTEFlags.V)).mem
              (((writePTE s3 F1 (idx1 v) (PageTableEntry.new F2 PTEFlags.V)).mem
                pt.root_ppn i).ppn) j)).is_valid = true →
            (((writePTE s3 F1 (idx1 v) (PageTableEntry.new F2 PTEFlags.V)).mem
              (((writePTE s3 F1 (idx1 v) (PageTableEntry.new F2 PTEFlags.V)).mem
                pt.root_ppn i).ppn) j)).ppn = F2 →
            i = idx0 v ∧ j = idx1 v := by
          intro i j hi hj heq
          rw [hroot4] at hi hj heq
          by_cases hc : i = idx0 v
          · subst hc
            rw [hroot3a, new_V_ppn F1 (by omega)] at hj heq
            by_cases hj1 : j = idx1 v
            · exact ⟨rfl, hj1⟩
            · exfalso
              rw [writePTE_mem_ne _ _ _ _ _ _ (fun hc2 => hj1 hc2.2)] at hj heq
              have h := hother2 F1 j (by rw [writePTE_next]; omega)
              rw [h, writePTE_mem_ne _ _ _ _ _ _ (fun hc2 => hrootF1 hc2.1.symm),
                hF1eq, hclear1 j] at hj
              exact absurd hj (by decide)
          · exfalso
            rw [hroot3b i hc] at hi hj heq
            have hlt : (s.mem pt.root_ppn i).ppn < s.next := hInv.l1_lt i hi
            rw [writePTE_mem_ne _ _ _ _ _ _ (fun hc2 => by omega)] at hj heq
            have h := hother2 (s.mem pt.root_ppn i).ppn j (by rw [writePTE_next]; omega)
            rw [h, writePTE_mem_ne _ _ _ _ _ _
              (fun hc2 => by have := hInv.l1_gt i hi; omega),
              hother1 _ j (by omega)] at hj heq
            have := hInv.l2_lt i j hi hj
            omega
        refine ⟨by rw [← hpt], ?_, ?_, ?_, ?_⟩
        · exact inv_write_outside pt.root_ppn _ F2 (idx2 v) _ hInv4
            (by have := hInv.rootLt; omega) hFp1s4
        · rw [writePTE_next, writePTE_next]
          omega
        · rw [translate_def]
          rw [writePTE_mem_ne _ _ _ _ _ _ (fun hc => by have := hInv.rootLt; omega)]
          rw [hroot4, hroot3a]
          rw [if_pos (new_V_valid F1), new_V_ppn F1 (by omega)]
          rw [writePTE_mem_ne _ _ _ _ _ _ (fun hc => hF1F2 hc.1)]
          rw [writePTE_mem_eq]
          rw [if_pos (new_V_valid F2), new_V_ppn F2 (by omega)]
          rw [writePTE_mem_eq]
        · intro w e hw hv hne htr
          have t1 : pt.translate s1.mem w = some e := by
            rw [translate_frame_alloc pt s F1 s1 hInv ha1 w]
            exact htr
          have t2 := translate_preserve_l0_write pt s1 (idx0 v) F1 hInv1 hslot1 w e t1
          have t3 : pt.translate s3.mem w = some e := by
            rw [translate_frame_alloc pt _ F2 s3 hInv2 ha2 w]
            exact t2
          have t4 := translate_preserve_l1_write pt s3 F1 (idx1 v) F2 hInv3 hex3 hslot3
            w e t3
          rw [translate_write_outside pt _ F2 (idx2 v) _ (idx0 v) (idx1 v) hInv4
            (by have := hInv.rootLt; omega) hFp1s4 hown4 w
            (fun hc => hne (idx_triple_inj w v hw hv hc.1 hc.2.1 hc.2.2))]
          exact t4

/-- When the walk chain for `v` already exists and its leaf is not valid,
`map` succeeds without allocating, writing the leaf in place. -/
theorem map_chain_eq (pt : PageTable) (s : MState) (v p f : Nat) (e : PageTableEntry)
    (htr : pt.translate s.mem v = some e) (hinval : e.is_valid = false) :
    PageTable.map pt s v p f = some (pt, writePTE s
      (s.mem (s.mem pt.root_ppn (idx0 v)).ppn (idx1 v)).ppn (idx2 v)
      (PageTableEntry.new p (f ||| PTEFlags.V))) := by
  obtain ⟨h0, h1, hleaf⟩ := translate_some_elim pt s.mem v e htr
  unfold PageTable.map PageTable.find_pte_create
  rw [walkStep_valid pt s _ _ h0]
  simp only [Option.bind_eq_bind, Option.some_bind]
  rw [walkStep_valid pt s _ _ h1]
  simp only [Option.some_bind]
  rw [if_neg (by rw [hleaf, hinval]; simp)]

/-- With an unbounded budget and room in the PPN space, `map` succeeds on any
page that is not currently mapped to a valid entry. -/
theorem map_alloc_succeeds (pt : PageTable) (s : MState) (v p f : Nat)
    (hInv : Inv pt.root_ppn s)
    (hnm : ∀ e, pt.translate s.mem v = some e → e.is_valid = false)
    (hbudget : s.budget = none) (hroom : s.next + 2 ≤ 2 ^ 44) :
    ∃ pt' s', PageTable.map pt s v p f = some (pt', s') := by
  by_cases h0 : (s.mem pt.root_ppn (idx0 v)).is_valid = true
  · by_cases h1 : (s.mem (s.mem pt.root_ppn (idx0 v)).ppn (idx1 v)).is_valid = true
    · exact ⟨_, _, map_chain_eq pt s v p f _ (translate_chain pt s.mem v h0 h1)
        (hnm _ (translate_chain pt s.mem v h0 h1))⟩
    · obtain ⟨F, s1, ha⟩ := frame_alloc_succeeds s hbudget (by omega)
      obtain ⟨hFeq, hs1next, _, hother, hclear, _⟩ := frame_alloc_spec s F s1 ha
      unfold PageTable.map PageTable.find_pte_create
      rw [walkStep_valid pt s _ _ h0]
      simp only [Option.bind_eq_bind, Option.some_bind]
      rw [walkStep_alloc pt s _ _ (bool_not_true h1) F s1 ha]
      simp only [Option.some_bind]
      rw [new_V_ppn F (by omega)]
      have hb1' : (s.mem pt.root_ppn (idx0 v)).ppn < s.next := hInv.l1_lt _ h0
      have hleaf : (writePTE s1 (s.mem pt.root_ppn (idx0 v)).ppn (idx1 v)
          (PageTableEntry.new F PTEFlags.V)).mem F (idx2 v) = PageTableEntry.empty := by
        rw [writePTE_mem_ne _ _ _ _ _ _ (fun hc => by omega), hFeq]
        exact hclear _
      rw [hleaf]
      rw [if_neg (by decide)]
      exact ⟨_, _, rfl⟩
  · obtain ⟨F1, s1, ha1⟩ := frame_alloc_succeeds s hbudget (by omega)
    obtain ⟨hF1eq, hs1next, _, hother1, hclear1, hbud1⟩ := frame_alloc_spec s F1 s1 ha1
    unfold PageTable.map PageTable.find_pte_create
    rw [walkStep_alloc pt s _ _ (bool_not_true h0) F1 s1 ha1]
    simp only [Option.bind_eq_bind, Option.some_bind]
    rw [new_V_ppn F1 (by omega)]
    have hrootlt := hInv.rootLt
    have hbud2 : (writePTE s1 pt.root_ppn (idx0 v)
        (PageTableEntry.new F1 PTEFlags.V)).budget = none := by
      rw [writePTE_budget, hbud1, hbudget]
      rfl
    have hnext2 : (writePTE s1 pt.root_ppn (idx0 v)
        (PageTableEntry.new F1 PTEFlags.V)).next = s.next + 1 := by
      rw [writePTE_next, hs1next]
    obtain ⟨F2, s3, ha2⟩ := frame_alloc_succeeds _ hbud2 (by rw [hnext2]; omega)
    obtain ⟨hF2eq, hs3next, _, hother2, hclear2, _⟩ := frame_alloc_spec _ F2 s3 ha2
    rw [hnext2] at hF2eq hs3next hclear2
    have hslot2 : (writePTE s1 pt.root_ppn (idx0 v)
        (PageTableEntry.new F1 PTEFlags.V)).mem F1 (idx1 v) = PageTableEntry.empty := by
      rw [writePTE_mem_ne _ _ _ _ _ _ (fun hc => by omega), hF1eq]
      exact hclear1 _
    rw [walkStep_alloc _ _ _ _ (by rw [hslot2]; rfl) F2 s3 ha2]
    simp only [Option.some_bind]
    rw [new_V_ppn F2 (by omega)]
    have hleaf : (writePTE s3 F1 (idx1 v) (PageTableEntry.new F2 PTEFlags.V)).mem F2
        (idx2 v) = PageTableEntry.empty := by
      rw [writePTE_mem_ne _ _ _ _ _ _ (fun hc => by omega), hF2eq]
      exact hclear2 _
    rw [hleaf]
    rw [if_neg (by decide)]
    exact ⟨_, _, rfl⟩

theorem inv_msEmpty : Inv 0 msEmpty := by
  have hf : ∀ q i, (msEmpty.mem q i).is_valid = false := fun q i => by
    show PageTableEntry.empty.is_valid = false
    rfl
  refine ⟨by decide, by decide, ?_, ?_, ?_, ?_, ?_, ?_, ?_⟩
  · intro i hi
    rw [hf] at hi
    cases hi
  · intro i hi
    rw [hf] at hi
    cases hi
  · intro i j hi hj
    rw [hf] at hi
    cases hi
  · intro i j hi hj
    rw [hf] at hi
    cases hi
  · intro i i' hi hi' heq
    rw [hf] at hi
    cases hi
  · intro i j i' hi hj hi'
    rw [hf] at hi
    cases hi
  · intro i j i' j' hi hj hi' hj' heq
    rw [hf] at hi
    cases hi

/-- C5: on a well-formed table with sufficient frame supply, for every
in-range virtual page `v` that is not currently mapped, every physical page
number below `2 ^ 44` and every flag set without the Valid bit, `map(v,p,f)`
succeeds and `translate(v)` afterwards yields an entry whose decoded
physical page number is `p` and whose flags are `f | V`. -/
theorem C5_map_then_translate (pt : PageTable) (s : MState) (v p f : Nat)
    (hInv : Inv pt.root_ppn s) (hv : v < 2 ^ 27) (hp : p < 2 ^ 44) (hf : f < 2 ^ 8)
    (hfV : f % 2 = 0)
    (hnm : ∀ e, pt.translate s.mem v = some e → e.is_valid = false)
    (hbudget : s.budget = none) (hroom : s.next + 2 ≤ 2 ^ 44) :
    ∃ pt' s', PageTable.map pt s v p f = some (pt', s') ∧
      ∃ e, pt'.translate s'.mem v = some e ∧ e.ppn = p ∧
        e.flags = f ||| PTEFlags.V := by
  obtain ⟨pt', s', hmap⟩ := map_alloc_succeeds pt s v p f hInv hnm hbudget hroom
  obtain ⟨hroot, _, _, htr, _⟩ := map_spec pt s v p f pt' s' hInv hmap
  refine ⟨pt', s', hmap, PageTableEntry.new p (f ||| PTEFlags.V), ?_, ?_, ?_⟩
  · rw [translate_only_root pt' pt s'.mem hroot v]
    exact htr
  · exact leaf_ppn p f hp (by omega)
  · exact leaf_flags p f hf

/-- C5 witness: mapping virtual page 3 to physical page 7 with flags `R`
(value 2, Valid bit clear) on the empty table, then translating. -/
theorem C5_witness :
    ∃ pt' s', PageTable.map curEmpty msEmpty 3 7 2 = some (pt', s') ∧
      ∃ e, PageTable.translate pt' s'.mem 3 = some e ∧ e.ppn = 7 ∧
        e.flags = 2 ||| PTEFlags.V :=
  C5_map_then_translate curEmpty msEmpty 3 7 2 inv_msEmpty (by decide) (by decide)
    (by decide) (by decide)
    (fun e h => by
      rw [show PageTable.translate curEmpty msEmpty.mem 3 = none from rfl] at h
      cases h)
    rfl (by decide)

theorem roundedBound_spec (start len : Nat) (halign : start % PAGE_SIZE = 0)
    (hlen : 0 < len) (hrange : start + len ≤ 2 ^ 39) :
    start < roundedBound start len ∧ roundedBound start len ≤ 2 ^ 39 ∧
    roundedBound start len % PAGE_SIZE = 0 := by
  unfold roundedBound
  rw [PAGE_SIZE_eq] at *
  omega

/-- Effect of a successful munmap apply loop from a well-formed state: every
page of the remaining span was validly mapped before and translates to the
empty entry afterwards, and pages outside the span are untouched. -/
theorem munmapApply_spec (pt : PageTable) (bound : Nat) (hbound : bound ≤ 2 ^ 39)
    (hbalign : bound % PAGE_SIZE = 0) :
    ∀ fuel binder s s', Inv pt.root_ppn s → binder % PAGE_SIZE = 0 →
      (bound - binder) / PAGE_SIZE < fuel →
      munmapApply pt bound fuel binder s = some s' →
      Inv pt.root_ppn s' ∧ s'.next = s.next ∧ s'.budget = s.budget ∧
      (∀ a, binder ≤ a → a < bound → a % PAGE_SIZE = 0 →
        pt.translate s'.mem (a / PAGE_SIZE) = some PageTableEntry.empty) ∧
      (∀ a, binder ≤ a → a < bound → a % PAGE_SIZE = 0 →
        ∃ e, pt.translate s.mem (a / PAGE_SIZE) = some e ∧ e.is_valid = true) ∧
      (∀ w, w < 2 ^ 27 → (∀ a, binder ≤ a → a < bound → a % PAGE_SIZE = 0 →
        w ≠ a / PAGE_SIZE) → pt.translate s'.mem w = pt.translate s.mem w) := by
  intro fuel
  induction fuel with
  | zero =>
    intro binder s s' _ _ hf
    exact absurd hf (Nat.not_lt_zero _)
  | succ n ih =>
    intro binder s s' hInv hb hf happ
    simp only [munmapApply] at happ
    by_cases hlt : binder < bound
    · rw [if_pos hlt] at happ
      cases hu : pt.unmap s (binder / PAGE_SIZE) with
      | none =>
        rw [hu] at happ
        cases happ
      | some s1 =>
        rw [hu] at happ
        obtain ⟨hInv1, hnext1, hbud1, hbefore, hafter1, hpres1⟩ :=
          unmap_spec pt s (binder / PAGE_SIZE) s1 hInv hu
        have hvlt : binder / PAGE_SIZE < 2 ^ 27 := by
          rw [PAGE_SIZE_eq] at *
          omega
        obtain ⟨hInv', hnext', hbud', hspan', hvalid', hpres'⟩ :=
          ih (binder + PAGE_SIZE) s1 s' hInv1
            (by rw [PAGE_SIZE_eq] at *; omega) (by rw [PAGE_SIZE_eq] at *; omega) happ
        refine ⟨hInv', by omega, by rw [hbud', hbud1], ?_, ?_, ?_⟩
        · intro a ha1 ha2 ha3
          by_cases hae : a = binder
          · subst hae
            rw [hpres' (a / PAGE_SIZE) hvlt ?_]
            · exact hafter1
            · intro a' ha1' ha2' ha3'
              rw [PAGE_SIZE_eq] at *
              omega
          · exact hspan' a (by rw [PAGE_SIZE_eq] at *; omega) ha2 ha3
        · intro a ha1 ha2 ha3
          by_cases hae : a = binder
          · subst hae
            exact ⟨_, hbefore.choose_spec.1, hbefore.choose_spec.2⟩
          · obtain ⟨e, he1, he2⟩ := hvalid' a (by rw [PAGE_SIZE_eq] at *; omega) ha2 ha3
            refine ⟨e, ?_, he2⟩
            rw [← hpres1 (a / PAGE_SIZE) (by rw [PAGE_SIZE_eq] at *; omega) hvlt
              (by rw [PAGE_SIZE_eq] at *; omega)]
            exact he1
        · intro w hw hout
          rw [hpres' w hw (fun a ha1 ha2 ha3 =>
            hout a (by rw [PAGE_SIZE_eq] at *; omega) ha2 ha3)]
          exact hpres1 w hw hvlt (hout binder le_rfl hlt hb)
    · rw [if_neg hlt] at happ
      injection happ with happ
      subst happ
      refine ⟨hInv, rfl, rfl, ?_, ?_, ?_⟩
      · intro a ha1 ha2 _
        omega
      · intro a ha1 ha2 _
        omega
      · intro w _ _
        rfl

/-- Effect of a successful `sys_munmap` run on the current address space. -/
theorem sys_munmap_spec (cur : PageTable) (s : MState) (start len : Nat) (s' : MState)
    (hInv : Inv cur.root_ppn s) (halign : start % PAGE_SIZE = 0) (hlen : 0 < len)
    (hrange : start + len ≤ 2 ^ 39)
    (hrun : sys_munmap cur s start len = some (0, s')) :
    Inv cur.root_ppn s' ∧ s'.next = s.next ∧ s'.budget = s.budget ∧
    (∀ a, start ≤ a → a < roundedBound start len → a % PAGE_SIZE = 0 →
      PageTable.translate (PageTable.from_token cur.token) s'.mem (a / PAGE_SIZE) =
        some PageTableEntry.empty) ∧
    (∀ a, start ≤ a → a < roundedBound start len → a % PAGE_SIZE = 0 →
      ∃ e, PageTable.translate (PageTable.from_token cur.token) s.mem (a / PAGE_SIZE) =
        some e ∧ e.is_valid = true) ∧
    (∀ w, w < 2 ^ 27 → (∀ a, start ≤ a → a < roundedBound start len →
      a % PAGE_SIZE = 0 → w ≠ a / PAGE_SIZE) →
      PageTable.translate (PageTable.from_token cur.token) s'.mem w =
        PageTable.translate (PageTable.from_token cur.token) s.mem w) := by
  have hroot44 : cur.root_ppn < 2 ^ 44 := by
    have := hInv.rootLt
    have := hInv.nextLe
    omega
  have hft := from_token_token cur hroot44
  obtain ⟨hb1, hb2, hb3⟩ := roundedBound_spec start len halign hlen hrange
  unfold sys_munmap at hrun
  rw [if_neg (by simp [halign])] at hrun
  dsimp only at hrun
  rw [hft] at hrun ⊢
  by_cases hcheck : munmapCheck ⟨cur.root_ppn, []⟩ s.mem (roundedBound start len)
      (roundedBound start len / PAGE_SIZE + 1) start = true
  · rw [if_pos hcheck] at hrun
    rw [Option.some.injEq, Prod.mk.injEq] at hrun
    exact absurd hrun.1 (by decide)
  · rw [if_neg hcheck] at hrun
    cases happ : munmapApply ⟨cur.root_ppn, []⟩ (roundedBound start len)
        (roundedBound start len / PAGE_SIZE + 1) start s with
    | none =>
      rw [happ] at hrun
      cases hrun
    | some s1 =>
      rw [happ] at hrun
      rw [Option.map_some', Option.some.injEq, Prod.mk.injEq] at hrun
      obtain ⟨_, hs1⟩ := hrun
      cases hs1
      exact munmapApply_spec ⟨cur.root_ppn, []⟩ (roundedBound start len) hb2 hb3
        (roundedBound start len / PAGE_SIZE + 1) start s s' hInv halign
        (by rw [PAGE_SIZE_eq] at *; omega) happ

/-- C9 (amended): `sys_mmap` only reads through its token-constructed view,
but `sys_munmap` mutates through one: its apply phase calls
`PageTable.unmap` on the `from_token` page table, and observably the
translation of the first span page seen through that token-constructed view
changes from a valid entry to the empty entry across a successful call. -/
theorem C9_munmap_mutates_token_view (cur : PageTable) (s : MState) (start len : Nat)
    (s' : MState) (hInv : Inv cur.root_ppn s) (halign : start % PAGE_SIZE = 0)
    (hlen : 0 < len) (hrange : start + len ≤ 2 ^ 39)
    (hrun : sys_munmap cur s start len = some (0, s')) :
    ∃ e, PageTable.translate (PageTable.from_token cur.token) s.mem
        (start / PAGE_SIZE) = some e ∧ e.is_valid = true ∧
      PageTable.translate (PageTable.from_token cur.token) s'.mem
        (start / PAGE_SIZE) = some PageTableEntry.empty := by
  obtain ⟨_, _, _, hafter, hbefore, _⟩ :=
    sys_munmap_spec cur s start len s' hInv halign hlen hrange hrun
  obtain ⟨hb1, _⟩ := roundedBound_spec start len halign hlen hrange
  obtain ⟨e, he1, he2⟩ := hbefore start le_rfl hb1 halign
  exact ⟨e, he1, he2, hafter start le_rfl hb1 halign⟩

/-- C9 witness: on `ms9` (page 0 mapped with bits 7171), `sys_munmap(0, 4096)`
succeeds, and the token-constructed view of the same address space sees the
translation of page 0 change from the valid entry to the empty one. -/
theorem C9_witness :
    ∃ s' e, sys_munmap cur9 ms9 0 4096 = some (0, s') ∧
      PageTable.translate (PageTable.from_token cur9.token) ms9.mem 0 = some e ∧
      e.is_valid = true ∧
      PageTable.translate (PageTable.from_token cur9.token) s'.mem 0 =
        some PageTableEntry.empty := by
  obtain ⟨s', hs'⟩ : ∃ x, sys_munmap cur9 ms9 0 4096 = some (0, x) := ⟨_, rfl⟩
  obtain ⟨e, he1, he2, he3⟩ := C9_munmap_mutates_token_view cur9 ms9 0 4096 s' inv_ms9
    (by decide) (by decide) (by decide) hs'
  exact ⟨s', e, hs', he1, he2, he3⟩

/-- Any successful pass of the mmap apply loop keeps the tree well-formed and
the root unchanged, whatever mix of existing and freshly created
intermediate tables the pages need. -/
theorem mmapApply_inv (bound oflags : Nat) :
    ∀ fuel binder cur s cur' s', Inv cur.root_ppn s →
      mmapApply bound oflags fuel binder cur s = some (cur', s') →
      cur'.root_ppn = cur.root_ppn ∧ Inv cur.root_ppn s' := by
  intro fuel
  induction fuel with
  | zero =>
    intro binder cur s cur' s' _ happ
    simp only [mmapApply] at happ
    cases happ
  | succ n ih =>
    intro binder cur s cur' s' hInv happ
    simp only [mmapApply] at happ
    by_cases hlt : binder < bound
    · rw [if_pos hlt] at happ
      cases hal : frame_alloc s with
      | none =>
        rw [hal] at happ
        dsimp only at happ
        cases hm : map_inner cur s (binder / PAGE_SIZE) 0 (PTEFlags.U ||| oflags) with
        | none =>
          rw [hm] at happ
          cases happ
        | some r =>
          obtain ⟨cur2, s2⟩ := r
          rw [hm] at happ
          obtain ⟨hroot2, hInv2, _, _, _⟩ := map_spec cur s _ _ _ cur2 s2 hInv hm
          obtain ⟨hroot', hInv'⟩ := ih _ cur2 s2 cur' s'
            (by rw [hroot2]; exact hInv2) happ
          rw [hroot2] at hroot' hInv'
          exact ⟨hroot', hInv'⟩
      | some r1 =>
        obtain ⟨F, s1⟩ := r1
        rw [hal] at happ
        dsimp only at happ
        have hInv1 := frame_alloc_inv cur.root_ppn s F s1 hInv hal
        cases hm : map_inner cur s1 (binder / PAGE_SIZE) F (PTEFlags.U ||| oflags) with
        | none =>
          rw [hm] at happ
          cases happ
        | some r =>
          obtain ⟨cur2, s2⟩ := r
          rw [hm] at happ
          obtain ⟨hroot2, hInv2, _, _, _⟩ := map_spec cur s1 _ _ _ cur2 s2 hInv1 hm
          obtain ⟨hroot', hInv'⟩ := ih _ cur2 s2 cur' s'
            (by rw [hroot2]; exact hInv2) happ
          rw [hroot2] at hroot' hInv'
          exact ⟨hroot', hInv'⟩
    · rw [if_neg hlt] at happ
      rw [Option.some.injEq, Prod.mk.injEq] at happ
      obtain ⟨h1, h2⟩ := happ
      subst h1
      subst h2
      exact ⟨rfl, hInv⟩

/-- Any successful `sys_mmap` keeps the current address space well-formed. -/
theorem sys_mmap_inv (cur : PageTable) (s : MState) (start len port : Nat) (r : Int)
    (cur' : PageTable) (s' : MState) (hInv : Inv cur.root_ppn s)
    (hrun : sys_mmap cur s start len port = some (r, cur', s')) :
    cur'.root_ppn = cur.root_ppn ∧ Inv cur.root_ppn s' := by
  unfold sys_mmap at hrun
  by_cases hval : port &&& 7 = 0 ∨ port &&& (2 ^ 64 - 8) ≠ 0 ∨ start % PAGE_SIZE ≠ 0
  · rw [if_pos hval] at hrun
    rw [Option.some.injEq, Prod.mk.injEq, Prod.mk.injEq] at hrun
    obtain ⟨_, h2, h3⟩ := hrun
    subst h2
    subst h3
    exact ⟨rfl, hInv⟩
  · rw [if_neg hval] at hrun
    dsimp only at hrun
    by_cases hcheck : mmapCheck (PageTable.from_token cur.token) s.mem
        (roundedBound start len) (roundedBound start len / PAGE_SIZE + 1) start = true
    · rw [if_pos hcheck] at hrun
      rw [Option.some.injEq, Prod.mk.injEq, Prod.mk.injEq] at hrun
      obtain ⟨_, h2, h3⟩ := hrun
      subst h2
      subst h3
      exact ⟨rfl, hInv⟩
    · rw [if_neg hcheck] at hrun
      cases happ : mmapApply (roundedBound start len) (otherFlags port)
          (roundedBound start len / PAGE_SIZE + 1) start cur s with
      | none =>
        rw [happ] at hrun
        cases hrun
      | some r2 =>
        obtain ⟨cur2, s2⟩ := r2
        rw [happ] at hrun
        rw [Option.map_some', Option.some.injEq, Prod.mk.injEq, Prod.mk.injEq] at hrun
        obtain ⟨_, h2, h3⟩ := hrun
        subst h2
        subst h3
        exact mmapApply_inv _ _ _ _ cur s _ _ hInv happ

/-- The mmap check loop passes a span all of whose pages translate to the
empty entry (or not at all). -/
theorem mmapCheck_false (pt : PageTable) (m : Nat → Nat → PageTableEntry) (bound : Nat) :
    ∀ fuel binder, binder % PAGE_SIZE = 0 →
      (∀ a, binder ≤ a → a < bound → a % PAGE_SIZE = 0 →
        pt.translate m (a / PAGE_SIZE) = none ∨
        pt.translate m (a / PAGE_SIZE) = some PageTableEntry.empty) →
      mmapCheck pt m bound fuel binder = false := by
  intro fuel
  induction fuel with
  | zero => intro binder _ _; simp only [mmapCheck]
  | succ n ih =>
    intro binder hb hspan
    simp only [mmapCheck]
    by_cases hlt : binder < bound
    · rw [if_pos hlt]
      have hih := ih (binder + PAGE_SIZE) (by rw [PAGE_SIZE_eq] at *; omega)
        (fun a ha1 ha2 ha3 => hspan a (by rw [PAGE_SIZE_eq] at *; omega) ha2 ha3)
      rcases hspan binder le_rfl hlt hb with h | h
      · rw [h]
        exact hih
      · rw [h]
        dsimp only
        rw [if_neg (by decide)]
        exact hih
    · rw [if_neg hlt]

/-- Success and effect of the mmap apply loop on a span whose pages all hold
cleared leaves: every page gets a leaf with flags `U | requested | V`, the
physical page number defaulting to 0 when the allocator is exhausted. -/
theorem mmapApply_spec (bound oflags : Nat) (hbound : bound ≤ 2 ^ 39)
    (hbalign : bound % PAGE_SIZE = 0) :
    ∀ fuel binder cur s, Inv cur.root_ppn s → binder % PAGE_SIZE = 0 →
      (bound - binder) / PAGE_SIZE < fuel →
      (∀ a, binder ≤ a → a < bound → a % PAGE_SIZE = 0 →
        cur.translate s.mem (a / PAGE_SIZE) = some PageTableEntry.empty) →
      ∃ cur' s', mmapApply bound oflags fuel binder cur s = some (cur', s') ∧
        cur'.root_ppn = cur.root_ppn ∧ Inv cur.root_ppn s' ∧
        (∀ a, binder ≤ a → a < bound → a % PAGE_SIZE = 0 →
          ∃ q, cur.translate s'.mem (a / PAGE_SIZE) =
            some (PageTableEntry.new q ((PTEFlags.U ||| oflags) ||| PTEFlags.V)) ∧
            (s.budget = some 0 → q = 0)) ∧
        (∀ w e, w < 2 ^ 27 →
          (∀ a, binder ≤ a → a < bound → a % PAGE_SIZE = 0 → w ≠ a / PAGE_SIZE) →
          cur.translate s.mem w = some e → cur.translate s'.mem w = some e) := by
  intro fuel
  induction fuel with
  | zero =>
    intro binder cur s _ _ hf
    exact absurd hf (Nat.not_lt_zero _)
  | succ n ih =>
    intro binder cur s hInv hb hf hspan
    by_cases hlt : binder < bound
    · have hv27 : binder / PAGE_SIZE < 2 ^ 27 := by
        rw [PAGE_SIZE_eq] at *
        omega
      have hemp : cur.translate s.mem (binder / PAGE_SIZE) = some PageTableEntry.empty :=
        hspan binder le_rfl hlt hb
      cases hal : frame_alloc s with
      | none =>
        have hmap := map_chain_eq cur s (binder / PAGE_SIZE) 0 (PTEFlags.U ||| oflags)
          PageTableEntry.empty hemp empty_not_valid
        obtain ⟨hroot2, hInv2, _, htrv, hpres2⟩ := map_spec cur s _ _ _ _ _ hInv hmap
        have hbud2 : (writePTE s
            (s.mem (s.mem cur.root_ppn (idx0 (binder / PAGE_SIZE))).ppn
              (idx1 (binder / PAGE_SIZE))).ppn (idx2 (binder / PAGE_SIZE))
            (PageTableEntry.new 0 ((PTEFlags.U ||| oflags) ||| PTEFlags.V))).budget =
            s.budget := writePTE_budget _ _ _ _
        obtain ⟨cur', s', happ, hroot', hInv', hspan', hpres'⟩ := ih (binder + PAGE_SIZE)
          cur _ hInv2 (by rw [PAGE_SIZE_eq] at *; omega)
          (by rw [PAGE_SIZE_eq] at *; omega)
          (fun a ha1 ha2 ha3 => hpres2 (a / PAGE_SIZE) PageTableEntry.empty
            (by rw [PAGE_SIZE_eq] at *; omega) hv27
            (by rw [PAGE_SIZE_eq] at *; omega)
            (hspan a (by rw [PAGE_SIZE_eq] at *; omega) ha2 ha3))
        have hmi : map_inner cur s (binder / PAGE_SIZE) 0 (PTEFlags.U ||| oflags) =
            some (cur, writePTE s
              (s.mem (s.mem cur.root_ppn (idx0 (binder / PAGE_SIZE))).ppn
                (idx1 (binder / PAGE_SIZE))).ppn (idx2 (binder / PAGE_SIZE))
              (PageTableEntry.new 0 ((PTEFlags.U ||| oflags) ||| PTEFlags.V))) := hmap
        refine ⟨cur', s', ?_, hroot', hInv', ?_, ?_⟩
        · simp only [mmapApply]
          rw [if_pos hlt, hal]
          dsimp only
          rw [hmi]
          exact happ
        · intro a ha1 ha2 ha3
          by_cases hae : a = binder
          · subst hae
            exact ⟨0, hpres' (a / PAGE_SIZE) _ hv27
              (fun a' ha1' ha2' ha3' => by rw [PAGE_SIZE_eq] at *; omega) htrv,
              fun _ => rfl⟩
          · obtain ⟨q, hq, hqb⟩ := hspan' a (by rw [PAGE_SIZE_eq] at *; omega) ha2 ha3
            exact ⟨q, hq, fun hb0 => hqb (by rw [hbud2, hb0])⟩
        · intro w e hw hout htr
          exact hpres' w e hw
            (fun a ha1 ha2 ha3 => hout a (by rw [PAGE_SIZE_eq] at *; omega) ha2 ha3)
            (hpres2 w e hw hv27 (hout binder le_rfl hlt hb) htr)
      | some r1 =>
        obtain ⟨F, s1⟩ := r1
        have hnb : ¬ s.budget = some 0 := by
          intro hb0
          unfold frame_alloc at hal
          rw [if_pos (Or.inl hb0)] at hal
          cases hal
        have hInv1 := frame_alloc_inv cur.root_ppn s F s1 hInv hal
        have hemp1 : cur.translate s1.mem (binder / PAGE_SIZE) =
            some PageTableEntry.empty := by
          rw [translate_frame_alloc cur s F s1 hInv hal]
          exact hemp
        have hmap := map_chain_eq cur s1 (binder / PAGE_SIZE) F (PTEFlags.U ||| oflags)
          PageTableEntry.empty hemp1 empty_not_valid
        obtain ⟨hroot2, hInv2, _, htrv, hpres2⟩ := map_spec cur s1 _ _ _ _ _ hInv1 hmap
        obtain ⟨cur', s', happ, hroot', hInv', hspan', hpres'⟩ := ih (binder + PAGE_SIZE)
          cur _ hInv2 (by rw [PAGE_SIZE_eq] at *; omega)
          (by rw [PAGE_SIZE_eq] at *; omega)
          (fun a ha1 ha2 ha3 => hpres2 (a / PAGE_SIZE) PageTableEntry.empty
            (by rw [PAGE_SIZE_eq] at *; omega) hv27
            (by rw [PAGE_SIZE_eq] at *; omega)
            (by rw [translate_frame_alloc cur s F s1 hInv hal]
                exact hspan a (by rw [PAGE_SIZE_eq] at *; omega) ha2 ha3))
        have hmi : map_inner cur s1 (binder / PAGE_SIZE) F (PTEFlags.U ||| oflags) =
            some (cur, writePTE s1
              (s1.mem (s1.mem cur.root_ppn (idx0 (binder / PAGE_SIZE))).ppn
                (idx1 (binder / PAGE_SIZE))).ppn (idx2 (binder / PAGE_SIZE))
              (PageTableEntry.new F ((PTEFlags.U ||| oflags) ||| PTEFlags.V))) := hmap
        refine ⟨cur', s', ?_, hroot', hInv', ?_, ?_⟩
        · simp only [mmapApply]
          rw [if_pos hlt, hal]
          dsimp only
          rw [hmi]
          exact happ
        · intro a ha1 ha2 ha3
          by_cases hae : a = binder
          · subst hae
            exact ⟨F, hpres' (a / PAGE_SIZE) _ hv27
              (fun a' ha1' ha2' ha3' => by rw [PAGE_SIZE_eq] at *; omega) htrv,
              fun hb0 => absurd hb0 hnb⟩
          · obtain ⟨q, hq, _⟩ := hspan' a (by rw [PAGE_SIZE_eq] at *; omega) ha2 ha3
            exact ⟨q, hq, fun hb0 => absurd hb0 hnb⟩
        · intro w e hw hout htr
          refine hpres' w e hw
            (fun a ha1 ha2 ha3 => hout a (by rw [PAGE_SIZE_eq] at *; omega) ha2 ha3) ?_
          refine hpres2 w e hw hv27 (hout binder le_rfl hlt hb) ?_
          rw [translate_frame_alloc cur s F s1 hInv hal]
          exact htr
    · refine ⟨cur, s, ?_, rfl, hInv, ?_, ?_⟩
      · simp only [mmapApply]
        rw [if_neg hlt]
      · intro a ha1 ha2 _
        omega
      · intro w e _ _ htr
        exact htr

/-- Success of `sys_mmap` when every page of the rounded span currently holds
the cleared (empty) leaf entry: validation and the check phase pass, the
apply phase installs a `U | requested | V` leaf on every span page, and the
physical page number defaults to 0 when the allocator is exhausted. -/
theorem sys_mmap_spec_empty_span (cur : PageTable) (s : MState) (start len port : Nat)
    (hInv : Inv cur.root_ppn s)
    (hp1 : port &&& 7 ≠ 0) (hp2 : port &&& (2 ^ 64 - 8) = 0)
    (halign : start % PAGE_SIZE = 0) (hlen : 0 < len) (hrange : start + len ≤ 2 ^ 39)
    (hspan : ∀ a, start ≤ a → a < roundedBound start len → a % PAGE_SIZE = 0 →
      PageTable.translate (PageTable.from_token cur.token) s.mem (a / PAGE_SIZE) =
        some PageTableEntry.empty) :
    ∃ cur' s', sys_mmap cur s start len port = some (0, cur', s') ∧
      cur'.root_ppn = cur.root_ppn ∧ Inv cur.root_ppn s' ∧
      (∀ a, start ≤ a → a < roundedBound start len → a % PAGE_SIZE = 0 →
        ∃ q, PageTable.translate (PageTable.from_token cur.token) s'.mem (a / PAGE_SIZE) =
          some (PageTableEntry.new q ((PTEFlags.U ||| otherFlags port) ||| PTEFlags.V)) ∧
          (s.budget = some 0 → q = 0)) := by
  have hroot44 : cur.root_ppn < 2 ^ 44 := by
    have := hInv.rootLt
    have := hInv.nextLe
    omega
  have hft := from_token_token cur hroot44
  obtain ⟨hb1, hb2, hb3⟩ := roundedBound_spec start len halign hlen hrange
  have hbridge : ∀ (m : Nat → Nat → PageTableEntry) w,
      PageTable.translate (PageTable.from_token cur.token) m w = cur.translate m w := by
    intro m w
    rw [hft]
    exact translate_only_root _ cur m rfl w
  obtain ⟨cur', s', happ, hroot', hInv', hspan', _⟩ := mmapApply_spec
    (roundedBound start len) (otherFlags port) hb2 hb3
    (roundedBound start len / PAGE_SIZE + 1) start cur s hInv halign
    (by rw [PAGE_SIZE_eq] at *; omega)
    (fun a ha1 ha2 ha3 => by rw [← hbridge]; exact hspan a ha1 ha2 ha3)
  refine ⟨cur', s', ?_, hroot', hInv', ?_⟩
  · unfold sys_mmap
    rw [if_neg (by push_neg; exact ⟨hp1, hp2, halign⟩)]
    dsimp only
    rw [mmapCheck_false (PageTable.from_token cur.token) s.mem (roundedBound start len)
      _ start halign (fun a ha1 ha2 ha3 => Or.inr (hspan a ha1 ha2 ha3))]
    rw [if_neg (by decide)]
    rw [happ]
    rfl
  · intro a ha1 ha2 ha3
    obtain ⟨q, hq, hqb⟩ := hspan' a ha1 ha2 ha3
    exact ⟨q, by rw [hbridge]; exact hq, hqb⟩

/-- C8: on a well-formed address space, for every page-aligned, valid-port,
positive-length, in-range request: if a first `sys_mmap` of the range
succeeded and a `sys_munmap` of the identical range then returned 0, a
second `sys_mmap` of the identical range also succeeds — the cleared leaf
entries left behind by munmap are not treated as overlaps. -/
theorem C8_mmap_munmap_mmap (cur cur₁ : PageTable) (s s₁ s₂ : MState)
    (start len port : Nat) (hInv : Inv cur.root_ppn s)
    (hp1 : port &&& 7 ≠ 0) (hp2 : port &&& (2 ^ 64 - 8) = 0)
    (halign : start % PAGE_SIZE = 0) (hlen : 0 < len) (hrange : start + len ≤ 2 ^ 39)
    (h1 : sys_mmap cur s start len port = some (0, cur₁, s₁))
    (h2 : sys_munmap cur₁ s₁ start len = some (0, s₂)) :
    ∃ cur₃ s₃, sys_mmap cur₁ s₂ start len port = some (0, cur₃, s₃) := by
  obtain ⟨hroot1, hInv1⟩ := sys_mmap_inv cur s start len port 0 cur₁ s₁ hInv h1
  have hInv1' : Inv cur₁.root_ppn s₁ := by
    rw [hroot1]
    exact hInv1
  obtain ⟨hInv2, _, _, hspan, _, _⟩ :=
    sys_munmap_spec cur₁ s₁ start len s₂ hInv1' halign hlen hrange h2
  obtain ⟨cur₃, s₃, hrun, _, _, _⟩ := sys_mmap_spec_empty_span cur₁ s₂ start len port
    hInv2 hp1 hp2 halign hlen hrange hspan
  exact ⟨cur₃, s₃, hrun⟩

/-- C8 witness: map one page at 4096 on the empty address space, unmap it,
map it again — all three calls return 0. -/
theorem C8_witness :
    ∃ cur₁ s₁ s₂ cur₃ s₃,
      sys_mmap curEmpty msEmpty 4096 4096 1 = some (0, cur₁, s₁) ∧
      sys_munmap cur₁ s₁ 4096 4096 = some (0, s₂) ∧
      sys_mmap cur₁ s₂ 4096 4096 1 = some (0, cur₃, s₃) := by
  obtain ⟨cur₁, s₁, h1, s₂, h2⟩ :
      ∃ c x, sys_mmap curEmpty msEmpty 4096 4096 1 = some (0, c, x) ∧
        ∃ y, sys_munmap c x 4096 4096 = some (0, y) := ⟨_, _, rfl, _, rfl⟩
  obtain ⟨cur₃, s₃, h3⟩ := C8_mmap_munmap_mmap curEmpty cur₁ msEmpty s₁ s₂ 4096 4096 1
    inv_msEmpty (by decide) (by decide) (by decide) (by decide) (by decide) h1 h2
  exact ⟨cur₁, s₁, s₂, cur₃, s₃, h1, h2, h3⟩

/-- C10 (amended): when the frame allocator is exhausted, `sys_mmap` of a
validated span still returns 0 — installing for every page a leaf that maps
it to physical page number 0 with flags `Valid | User | requested(R/W/X)` —
provided every span page's intermediate tables already exist with a cleared
leaf; when an intermediate table would have to be allocated, the call
instead panics inside `map` (see the counterexample). -/
theorem C10_frame_exhaustion_ppn0 (cur : PageTable) (s : MState) (start len port : Nat)
    (hInv : Inv cur.root_ppn s) (hbud : s.budget = some 0)
    (hp1 : port &&& 7 ≠ 0) (hp2 : port &&& (2 ^ 64 - 8) = 0)
    (halign : start % PAGE_SIZE = 0) (hlen : 0 < len) (hrange : start + len ≤ 2 ^ 39)
    (hspan : ∀ a, start ≤ a → a < roundedBound start len → a % PAGE_SIZE = 0 →
      PageTable.translate (PageTable.from_token cur.token) s.mem (a / PAGE_SIZE) =
        some PageTableEntry.empty) :
    ∃ cur' s', sys_mmap cur s start len port = some (0, cur', s') ∧
      (∀ a, start ≤ a → a < roundedBound start len → a % PAGE_SIZE = 0 →
        ∃ e, PageTable.translate (PageTable.from_token cur.token) s'.mem (a / PAGE_SIZE) =
          some e ∧ e.ppn = 0 ∧
          e.flags = (PTEFlags.U ||| otherFlags port) ||| PTEFlags.V) := by
  obtain ⟨cur', s', hrun, _, _, hspan'⟩ := sys_mmap_spec_empty_span cur s start len port
    hInv hp1 hp2 halign hlen hrange hspan
  refine ⟨cur', s', hrun, ?_⟩
  intro a ha1 ha2 ha3
  obtain ⟨q, hq, hq0⟩ := hspan' a ha1 ha2 ha3
  rw [hq0 hbud] at hq
  have hofs : PTEFlags.U ||| otherFlags port < 2 ^ 8 := by
    have h1 := u_or_eq port
    have h2 := otherFlags_lt port
    omega
  exact ⟨_, hq, leaf_ppn 0 _ (by norm_num) (by omega), leaf_flags 0 _ (by omega)⟩

theorem mem10_0_valid (i : Nat) (h : (ms10.mem 0 i).is_valid = true) : i = 0 := by
  by_cases h0 : i = 0
  · exact h0
  · exfalso
    have hm : ms10.mem 0 i = ⟨0⟩ := by
      show mem10 0 i = ⟨0⟩
      unfold mem10
      rw [if_neg (by omega), if_neg (by omega)]
    rw [hm] at h
    exact absurd h (by decide)

theorem mem10_1_valid (j : Nat) (h : (ms10.mem 1 j).is_valid = true) : j = 0 := by
  by_cases h0 : j = 0
  · exact h0
  · exfalso
    have hm : ms10.mem 1 j = ⟨0⟩ := by
      show mem10 1 j = ⟨0⟩
      unfold mem10
      rw [if_neg (by omega), if_neg (by omega)]
    rw [hm] at h
    exact absurd h (by decide)

theorem inv_ms10 : Inv 0 ms10 := by
  refine ⟨by decide, by decide, ?_, ?_, ?_, ?_, ?_, ?_, ?_⟩
  · intro i hi
    have h := mem10_0_valid i hi
    subst h
    decide
  · intro i hi
    have h := mem10_0_valid i hi
    subst h
    decide
  · intro i j hi hj
    have h := mem10_0_valid i hi
    subst h
    have hj' : (ms10.mem 1 j).is_valid = true := hj
    have h2 := mem10_1_valid j hj'
    subst h2
    decide
  · intro i j hi hj
    have h := mem10_0_valid i hi
    subst h
    have hj' : (ms10.mem 1 j).is_valid = true := hj
    have h2 := mem10_1_valid j hj'
    subst h2
    decide
  · intro i i' hi hi' _
    have h := mem10_0_valid i hi
    subst h
    have h' := mem10_0_valid i' hi'
    subst h'
    rfl
  · intro i j i' hi hj hi'
    have h := mem10_0_valid i hi
    subst h
    have h' := mem10_0_valid i' hi'
    subst h'
    have hj' : (ms10.mem 1 j).is_valid = true := hj
    have h2 := mem10_1_valid j hj'
    subst h2
    decide
  · intro i j i' j' hi hj hi' hj' _
    have h := mem10_0_valid i hi
    subst h
    have h2 := mem10_0_valid i' hi'
    subst h2
    have hjj : (ms10.mem 1 j).is_valid = true := hj
    have hjj' : (ms10.mem 1 j').is_valid = true := hj'
    have h3 := mem10_1_valid j hjj
    subst h3
    have h4 := mem10_1_valid j' hjj'
    subst h4
    exact ⟨rfl, rfl⟩

/-- C10 witness: with the allocator exhausted (`ms10`, budget 0) and virtual
page 511 holding a cleared leaf under existing intermediate tables, mapping
that single page returns 0 and installs a leaf with physical page number 0
and flags `V | U | R`. -/
theorem C10_witness :
    ∃ cur' s', sys_mmap cur10 ms10 2093056 4096 1 = some (0, cur', s') ∧
      ∃ e, PageTable.translate (PageTable.from_token cur10.token) s'.mem 511 =
        some e ∧ e.ppn = 0 ∧
        e.flags = (PTEFlags.U ||| otherFlags 1) ||| PTEFlags.V := by
  obtain ⟨cur', s', hrun, hsp⟩ := C10_frame_exhaustion_ppn0 cur10 ms10 2093056 4096 1
    inv_ms10 rfl (by decide) (by decide) (by decide) (by decide) (by decide)
    (by
      intro a ha1 ha2 ha3
      rw [show roundedBound 2093056 4096 = 2097152 from by decide] at ha2
      rw [PAGE_SIZE_eq] at ha3
      have hae : a = 2093056 := by omega
      subst hae
      rfl)
  obtain ⟨e, he1, he2, he3⟩ := hsp 2093056 le_rfl
    (by rw [show roundedBound 2093056 4096 = 2097152 from by decide]; omega) (by decide)
  exact ⟨cur', s', hrun, e, he1, he2, he3⟩

end RCoreVM
